import Mathlib

/-!
Verification of the Pterodactyl admin dashboard application (`app.py`).

This file gives a shallow embedding of the application's rate limiter
(`rate_limit`), its TTL response cache (`_get_cache_key`, `_is_cache_valid`
and the caching logic inside `PterodactylAPI._request`), the upstream error
handling of `_request` and `get_all_data`, the CSRF middleware
(`check_csrf`), and the route glue of `get_servers`, together with theorems
settling the specification's claims about them.

Python floats returned by `time.time()` are modelled as rationals; Python
dictionaries are modelled as association lists whose lookup mirrors `dict`
access; upstream HTTP behaviour is an explicit oracle value; Python
exceptions are modelled with `Except` over an explicit exception type, with
each `try/except` block embedded as a match on the raised constructor.
-/

namespace AppVerify

/-- `time.time()` values. -/
abbrev Time := ℚ

/-! ### JSON values

Parsed `response.json()` payloads.  Object fields keep insertion order, as
Python dictionaries do; field lookup mirrors `d[k]` / `d.get(k)`. -/

inductive Json where
  | null
  | jbool (b : Bool)
  | jnum (n : Int)
  | jstr (s : String)
  | jarr (elements : List Json)
  | jobj (fields : List (String × Json))

/-- Python truthiness of a JSON value (`if errors:`, `while url ...`). -/
def Json.truthy : Json → Bool
  | .null => false
  | .jbool b => b
  | .jnum n => n != 0
  | .jstr s => s != ""
  | .jarr xs => !xs.isEmpty
  | .jobj fs => !fs.isEmpty

/-- `d[k] = v` on a Python dict: replace in place when the key exists,
append otherwise (insertion order preserved). -/
def assocSet {β : Type} (fs : List (String × β)) (k : String) (v : β) :
    List (String × β) :=
  if (List.lookup k fs).isSome then
    fs.map (fun p => if p.1 == k then (p.1, v) else p)
  else fs ++ [(k, v)]

lemma toList_append (a b : String) : (a ++ b).toList = a.toList ++ b.toList :=
  rfl

/-- Whether `pat` starts the character list `s`. -/
def listStarts : List Char → List Char → Bool
  | [], _ => true
  | _ :: _, [] => false
  | p :: ps, c :: cs => p == c && listStarts ps cs

/-- Whether `pat` occurs as a contiguous run inside `s` (Python's
`pat in s` on strings). -/
def listHasSub (pat : List Char) : List Char → Bool
  | [] => pat.isEmpty
  | c :: cs => listStarts pat (c :: cs) || listHasSub pat cs

/-! ### Rate limiter (`rate_limit` decorator, app.py lines 211-228)

State: `request_times[client_ip]`, the list of admitted timestamps for one
client.  The decorator prunes entries with `current_time - t < per` kept,
rejects with HTTP 429 when `len(...) >= limit`, and otherwise appends the
current time and calls the handler. -/

/-- One admission check for a single client's timestamp list: prune, then
reject (leaving the pruned list) iff `limit <=` the pruned length, else
admit and append `now`.  Mirrors `wrapped` in `rate_limit`. -/
def rateLimitAdmit (limit : Nat) (per now : Time) (ts : List Time) :
    Bool × List Time :=
  let pruned := ts.filter (fun t => decide (now - t < per))
  if limit ≤ pruned.length then (false, pruned)
  else (true, pruned ++ [now])

/-- Run the admission check over a sequence of call times, threading the
per-client timestamp list.  Returns the trace of `(call time, decision)`
pairs and the final timestamp list. -/
def rateLimitRun (limit : Nat) (per : Time) :
    List Time → List Time → List (Time × Bool) × List Time
  | [], ts => ([], ts)
  | now :: rest, ts =>
    let step := rateLimitAdmit limit per now ts
    let tail := rateLimitRun limit per rest step.2
    ((now, step.1) :: tail.1, tail.2)

/-- The times of the admitted calls in a trace. -/
def admittedTimes (tr : List (Time × Bool)) : List Time :=
  (tr.filter (fun p => p.2)).map Prod.fst

/-! ### Lemmas about the rate limiter -/

lemma admittedTimes_cons (now : Time) (b : Bool) (tr : List (Time × Bool)) :
    admittedTimes ((now, b) :: tr)
      = if b then now :: admittedTimes tr else admittedTimes tr := by
  cases b <;> simp [admittedTimes]

lemma rateLimitRun_cons (limit : Nat) (per now : Time) (rest ts : List Time) :
    rateLimitRun limit per (now :: rest) ts
      = ((now, (rateLimitAdmit limit per now ts).1)
            :: (rateLimitRun limit per rest (rateLimitAdmit limit per now ts).2).1,
         (rateLimitRun limit per rest (rateLimitAdmit limit per now ts).2).2) :=
  rfl

lemma rateLimitAdmit_snd_length (limit : Nat) (per now : Time) (ts : List Time)
    (h : ts.length ≤ limit) :
    ((rateLimitAdmit limit per now ts).2).length ≤ limit := by
  unfold rateLimitAdmit
  have hple : (ts.filter (fun t => decide (now - t < per))).length ≤ ts.length :=
    List.length_filter_le _ ts
  by_cases hc : limit ≤ (ts.filter (fun t => decide (now - t < per))).length
  · rw [if_pos hc]
    exact le_trans hple h
  · rw [if_neg hc]
    simp only [List.length_append, List.length_singleton]
    omega

lemma rateLimitRun_snd_length (limit : Nat) (per : Time) :
    ∀ (calls : List Time) (ts : List Time), ts.length ≤ limit →
      ((rateLimitRun limit per calls ts).2).length ≤ limit
  | [], ts, h => h
  | now :: rest, ts, h => by
    simpa [rateLimitRun] using
      rateLimitRun_snd_length limit per rest
        ((rateLimitAdmit limit per now ts).2)
        (rateLimitAdmit_snd_length limit per now ts h)

lemma chain'_le_getLast :
    ∀ (l : List Time) (a L : Time), List.Chain' (· ≤ ·) (a :: l) →
      l.getLast? = some L → a ≤ L
  | [], _, _, _, h => by simp at h
  | b :: t, a, L, hch, hl => by
    have hab : a ≤ b := (List.chain'_cons.mp hch).1
    cases t with
    | nil =>
      simp only [List.getLast?_singleton, Option.some.injEq] at hl
      exact hl ▸ hab
    | cons c t' =>
      have hl' : (c :: t').getLast? = some L := by
        simpa [List.getLast?_cons_cons] using hl
      exact le_trans hab
        (chain'_le_getLast (c :: t') b L (List.chain'_cons.mp hch).2 hl')

lemma filter_window_collapse (per now L : Time) (hle : now ≤ L) (s : List Time) :
    (s.filter (fun t => decide (now - t < per))).filter
        (fun t => decide (L - t < per))
      = s.filter (fun t => decide (L - t < per)) := by
  rw [List.filter_filter]
  refine List.filter_congr (fun t _ => ?_)
  by_cases h : L - t < per
  · have h2 : now - t < per := lt_of_le_of_lt (by linarith) h
    simp [h, h2]
  · simp [h]

lemma rateLimitRun_final_characterization (limit : Nat) (per : Time)
    (hper : 0 < per) :
    ∀ (calls : List Time) (L : Time), calls.getLast? = some L →
      List.Chain' (· ≤ ·) calls → ∀ (s : List Time),
      (rateLimitRun limit per calls s).2
        = (s ++ admittedTimes (rateLimitRun limit per calls s).1).filter
            (fun t => decide (L - t < per))
  | [], _, hl, _, _ => by simp at hl
  | [now], L, hl, _, s => by
    simp only [List.getLast?_singleton, Option.some.injEq] at hl
    subst hl
    rw [rateLimitRun_cons]
    have hnow : (decide (now - now < per)) = true := by
      simp only [decide_eq_true_eq, sub_self]; linarith
    by_cases hc : limit ≤ (s.filter (fun t => decide (now - t < per))).length
    · have hstep : (rateLimitAdmit limit per now s)
          = (false, s.filter (fun t => decide (now - t < per))) := by
        simp [rateLimitAdmit, hc]
      rw [hstep]
      simp [rateLimitRun, admittedTimes, List.filter_filter]
    · have hstep : (rateLimitAdmit limit per now s)
          = (true, s.filter (fun t => decide (now - t < per)) ++ [now]) := by
        simp [rateLimitAdmit, hc]
      rw [hstep]
      simp [rateLimitRun, admittedTimes, List.filter_append, List.filter_filter,
        List.filter_cons, hnow, hper]
  | now :: c :: t, L, hl, hch, s => by
    have hl' : (c :: t).getLast? = some L := by
      simpa [List.getLast?_cons_cons] using hl
    have hch' : List.Chain' (· ≤ ·) (c :: t) := (List.chain'_cons.mp hch).2
    have hnowL : now ≤ L := chain'_le_getLast (c :: t) now L hch hl'
    have ih := rateLimitRun_final_characterization limit per hper (c :: t) L hl'
      hch' ((rateLimitAdmit limit per now s).2)
    rw [rateLimitRun_cons, ih, admittedTimes_cons]
    by_cases hc : limit ≤ (s.filter (fun t => decide (now - t < per))).length
    · have hstep : (rateLimitAdmit limit per now s)
          = (false, s.filter (fun t => decide (now - t < per))) := by
        simp [rateLimitAdmit, hc]
      rw [hstep]
      simp [List.filter_append, filter_window_collapse per now L hnowL s]
    · have hstep : (rateLimitAdmit limit per now s)
          = (true, s.filter (fun t => decide (now - t < per)) ++ [now]) := by
        simp [rateLimitAdmit, hc]
      rw [hstep]
      by_cases hn : L - now < per <;>
        simp [hn, List.filter_append, List.filter_cons,
          filter_window_collapse per now L hnowL s]

/-- C1: Rolling-window rate limiting.  For every monotone sequence of call
times, the stored timestamp list after the last call equals exactly the
admitted call times within the trailing window of the last call, and so at
most `limit` admissions fall within that rolling window; moreover with
limit = 3 per 60-second window, four consecutive calls for the same key
within one second yield admit, admit, admit, reject. -/
theorem rate_limit_rolling_window (limit : Nat) (per : Time)
    (calls : List Time) (L : Time) (hper : 0 < per)
    (hlast : calls.getLast? = some L)
    (hchain : List.Chain' (· ≤ ·) calls) :
    (rateLimitRun limit per calls []).2
        = (admittedTimes (rateLimitRun limit per calls []).1).filter
            (fun t => decide (L - t < per))
    ∧ ((admittedTimes (rateLimitRun limit per calls []).1).filter
          (fun t => decide (L - t < per))).length ≤ limit
    ∧ ((rateLimitRun 3 60 [0, 3/10, 6/10, 9/10] []).1).map Prod.snd
        = [true, true, true, false] := by
  have hchar := rateLimitRun_final_characterization limit per hper calls L
    hlast hchain []
  simp only [List.nil_append] at hchar
  refine ⟨hchar, ?_, ?_⟩
  · rw [← hchar]
    exact rateLimitRun_snd_length limit per calls [] (by simp)
  · norm_num [rateLimitRun, rateLimitAdmit, List.filter]

/-- Witness for `rate_limit_rolling_window` at the concrete rate-limit
scenario of the specification (limit 3, window 60, four calls within one
second). -/
theorem rate_limit_rolling_window_witness :
    (0 : Time) < 60
    ∧ ([0, 3/10, 6/10, 9/10] : List Time).getLast? = some (9/10)
    ∧ List.Chain' (· ≤ ·) ([0, 3/10, 6/10, 9/10] : List Time)
    ∧ ((rateLimitRun 3 60 [0, 3/10, 6/10, 9/10] []).1).map Prod.snd
        = [true, true, true, false] :=
  ⟨by norm_num, rfl, by norm_num [List.chain'_cons],
    (rate_limit_rolling_window 3 60 [0, 3/10, 6/10, 9/10] (9/10)
      (by norm_num) rfl (by norm_num [List.chain'_cons])).2.2⟩

/-! ### Response cache (`PterodactylAPI`, app.py lines 95-128)

`self.cache` maps cache keys to `{'data': ..., 'timestamp': ...}` entries;
`self.cache_timeout = 60`.  The map is modelled as an association list whose
`List.lookup` mirrors `dict` access (`cachePut` is `dict` assignment:
lookup-equivalent, most recent binding first). -/

structure CacheEntry where
  data : Json
  timestamp : Time

abbrev CacheMap := List (String × CacheEntry)

/-- `PterodactylAPI.cache_timeout` (app.py line 96). -/
def cache_timeout : Time := 60

/-- `PterodactylAPI._is_cache_valid` (app.py lines 101-104): the entry for
`key` is valid iff it exists and `time.time() - entry['timestamp']` is
strictly below the timeout. -/
def is_cache_valid (cache : CacheMap) (key : String) (now timeout : Time) :
    Bool :=
  match cache.lookup key with
  | none => false
  | some e => decide (now - e.timestamp < timeout)

/-- The cache read performed by `_request` (app.py lines 109-111): return the
stored data iff `_is_cache_valid` holds, treating everything else as absent.
This is the `get` operation of the specification's ResponseCache. -/
def cacheGet (cache : CacheMap) (key : String) (now timeout : Time) :
    Option Json :=
  if is_cache_valid cache key now timeout then
    (cache.lookup key).map CacheEntry.data
  else none

/-- The cache write performed by `_request` (app.py lines 125-128):
`self.cache[cache_key] = {'data': result, 'timestamp': time.time()}`,
unconditionally replacing any existing entry. -/
def cachePut (cache : CacheMap) (key : String) (e : CacheEntry) : CacheMap :=
  (key, e) :: cache.filter (fun p => p.1 != key)

lemma cachePut_lookup (cache : CacheMap) (key : String) (e : CacheEntry) :
    (cachePut cache key e).lookup key = some e := by
  simp [cachePut, List.lookup]

/-- C2 counterexample: the claim's expiry condition `now - stored_at > ttl`
is violated at the boundary.  With an entry stored at time 0 and ttl 60, the
lookup at time 60 returns absent although the entry exists and
`now - stored_at > ttl` is false — the code expires at `now - stored_at ≥
ttl`, not strictly greater. -/
theorem cache_expiry_boundary_counterexample :
    cacheGet [("k", ⟨Json.null, 0⟩)] "k" 60 60 = none
    ∧ List.lookup "k" [("k", (⟨Json.null, 0⟩ : CacheEntry))]
        = some ⟨Json.null, 0⟩
    ∧ ¬ ((60 : Time) - 0 > 60) := by
  refine ⟨?_, rfl, by norm_num⟩
  norm_num [cacheGet, is_cache_valid, List.lookup]

/-- C2 (amended): a cache lookup returns absent iff no entry exists for the
key or `now - stored_at ≥ ttl` (the entry expires at `≥ ttl`, not strictly
`> ttl`); with a positive ttl, immediately after a put the entry is
returned, and once the ttl has elapsed the same lookup returns absent, so a
stale entry is never served. -/
theorem cache_get_absent_iff (cache : CacheMap) (key : String)
    (now ttl : Time) :
    (cacheGet cache key now ttl = none
        ↔ cache.lookup key = none
          ∨ ∃ e, cache.lookup key = some e ∧ ttl ≤ now - e.timestamp)
    ∧ (∀ d t, 0 < ttl → cacheGet (cachePut cache key ⟨d, t⟩) key t ttl = some d)
    ∧ (∀ d t now', ttl ≤ now' - t →
        cacheGet (cachePut cache key ⟨d, t⟩) key now' ttl = none) := by
  refine ⟨?_, ?_, ?_⟩
  · unfold cacheGet is_cache_valid
    cases hl : cache.lookup key with
    | none => simp [hl]
    | some e =>
      by_cases hv : now - e.timestamp < ttl
      · simp [hl, hv, not_le.mpr hv]
      · simp [hl, hv, not_lt.mp hv]
  · intro d t h
    have hv : is_cache_valid (cachePut cache key ⟨d, t⟩) key t ttl = true := by
      simp [is_cache_valid, cachePut_lookup cache key ⟨d, t⟩]
      linarith
    simp [cacheGet, hv, cachePut_lookup cache key ⟨d, t⟩]
  · intro d t now' h
    have hv : is_cache_valid (cachePut cache key ⟨d, t⟩) key now' ttl = false := by
      simp [is_cache_valid, cachePut_lookup cache key ⟨d, t⟩]
      linarith
    simp [cacheGet, hv]

/-- Witness for `cache_get_absent_iff`: with ttl 1, an entry put at time 0 is
returned by a lookup at time 0 and absent at time 2. -/
theorem cache_get_absent_iff_witness :
    (0 : Time) < 1 ∧ (1 : Time) ≤ 2 - 0
    ∧ cacheGet (cachePut [] "k" ⟨Json.null, 0⟩) "k" 0 1 = some Json.null
    ∧ cacheGet (cachePut [] "k" ⟨Json.null, 0⟩) "k" 2 1 = none :=
  ⟨by norm_num, by norm_num,
    (cache_get_absent_iff [] "k" 0 1).2.1 Json.null 0 (by norm_num),
    (cache_get_absent_iff [] "k" 2 1).2.2 Json.null 0 2 (by norm_num)⟩

/-! ### Cache keys (`PterodactylAPI._get_cache_key`, app.py lines 98-99)

`f"{endpoint}_{json.dumps(params, sort_keys=True) if params else ''}"`.
Query parameter values occurring in the application are ints, strings and
booleans; `json.dumps(..., sort_keys=True)` serializes the dict with its
keys in sorted order. -/

inductive PVal where
  | pint (n : Int)
  | pstr (s : String)
  | pbool (b : Bool)
deriving DecidableEq

/-- JSON string escaping of one character, as `json.dumps` renders `"` and
`\` (the only escapes arising for this application's parameter strings). -/
def escapeChar (c : Char) : List Char :=
  if c = '"' ∨ c = '\\' then ['\\', c] else [c]

/-- JSON string escaping of a character sequence. -/
def escapeChars (s : List Char) : List Char := s.flatMap escapeChar

/-- JSON serialization of one parameter value, as `json.dumps` renders it:
decimal notation for ints, a quoted escaped string, `true`/`false` for
booleans. -/
def serPVal : PVal → List Char
  | .pint n => (toString n).toList
  | .pstr s => '"' :: escapeChars s.toList ++ ['"']
  | .pbool b => if b then ['t', 'r', 'u', 'e'] else ['f', 'a', 'l', 's', 'e']

/-- One `"key": value` member of the JSON object. -/
def serPair (p : String × PVal) : List Char :=
  '"' :: escapeChars p.1.toList ++ '"' :: ':' :: ' ' :: serPVal p.2

/-- The members of the JSON object joined by `, `, in the given order. -/
def pairsChars : List (String × PVal) → List Char
  | [] => []
  | [p] => serPair p
  | p :: q :: rest => serPair p ++ ',' :: ' ' :: pairsChars (q :: rest)

/-- The full brace-delimited JSON object text. -/
def dumpsChars (l : List (String × PVal)) : List Char :=
  '\x7b' :: pairsChars l ++ ['\x7d']

/-- Sort order used by `sort_keys=True`: compare parameter names. -/
def paramLe (a b : String × PVal) : Prop := a.1 ≤ b.1

instance : DecidableRel paramLe := fun a b =>
  inferInstanceAs (Decidable (a.1 ≤ b.1))

instance : IsTotal (String × PVal) paramLe := ⟨fun a b => le_total a.1 b.1⟩

instance : IsTrans (String × PVal) paramLe := ⟨fun _ _ _ h1 h2 => le_trans h1 h2⟩

/-- `json.dumps(params, sort_keys=True)` on a parameter dict. -/
def dumpsSorted (ps : List (String × PVal)) : String :=
  String.mk (dumpsChars (ps.insertionSort paramLe))

/-- `PterodactylAPI._get_cache_key(endpoint, params)` (app.py lines 98-99);
an empty/None params dict is falsy, yielding the empty suffix. -/
def get_cache_key (endpoint : String) (params : List (String × PVal)) :
    String :=
  endpoint ++ "_" ++ (if params.isEmpty then "" else dumpsSorted params)

/-- The cache key `_request` derives for an inbound API request (app.py line
107): `cache_key = self._get_cache_key(endpoint, params)` — the HTTP method
is not part of the key. -/
def requestCacheKey (method endpoint : String)
    (params : List (String × PVal)) : String :=
  get_cache_key endpoint params

lemma sorted_perm_eq_of_nodup_keys :
    ∀ (l1 l2 : List (String × PVal)), l1.Sorted paramLe → l2.Sorted paramLe →
      l1.Perm l2 → (l1.map Prod.fst).Nodup → l1 = l2
  | [], l2, _, _, hp, _ => (hp.symm.eq_nil).symm ▸ rfl
  | a :: t1, [], _, _, hp, _ => absurd hp.eq_nil (by simp)
  | a :: t1, b :: t2, hs1, hs2, hp, hnd => by
    have hbmem : b ∈ a :: t1 := hp.symm.subset (List.mem_cons_self b t2)
    have hamem : a ∈ b :: t2 := hp.subset (List.mem_cons_self a t1)
    have hab : a = b := by
      rcases List.mem_cons.mp hbmem with h | hbt1
      · exact h.symm
      rcases List.mem_cons.mp hamem with h | hat2
      · exact h
      have h1 : paramLe a b := List.rel_of_sorted_cons hs1 b hbt1
      have h2 : paramLe b a := List.rel_of_sorted_cons hs2 a hat2
      have hkey : a.1 = b.1 := le_antisymm h1 h2
      have : a.1 ∈ t1.map Prod.fst := hkey ▸ List.mem_map_of_mem Prod.fst hbt1
      exact absurd this (List.nodup_cons.mp hnd).1
    subst hab
    have ht : t1 = t2 :=
      sorted_perm_eq_of_nodup_keys t1 t2 hs1.of_cons hs2.of_cons hp.cons_inv
        (List.nodup_cons.mp hnd).2
    rw [ht]

/-! #### Decimal notation

`toString` on ints is `Nat.repr` (plus a sign), built from the fueled
`Nat.toDigitsCore`; the lemmas below recover its digits as the structural
`decDigits` and prove the decimal evaluation roundtrip used to invert the
cache-key serialization. -/

/-- The decimal digit characters of `n`, most significant first. -/
def decDigits (n : Nat) : List Char :=
  if n < 10 then [Nat.digitChar n]
  else decDigits (n / 10) ++ [Nat.digitChar (n % 10)]
  termination_by n
  decreasing_by exact Nat.div_lt_self (by omega) (by omega)

lemma toDigitsCore_eq_decDigits :
    ∀ (fuel n : Nat) (acc : List Char), n < fuel →
      Nat.toDigitsCore 10 fuel n acc = decDigits n ++ acc
  | fuel + 1, n, acc, _ => by
    rw [Nat.toDigitsCore]
    by_cases h10 : n < 10
    · have hdiv : n / 10 = 0 := by omega
      have hmod : n % 10 = n := by omega
      rw [decDigits]
      simp [hdiv, hmod, h10]
    · have hdiv : ¬ n / 10 = 0 := by omega
      have hlt : n / 10 < fuel := by
        have hd : n / 10 < n := Nat.div_lt_self (by omega) (by omega)
        omega
      rw [if_neg hdiv, toDigitsCore_eq_decDigits fuel (n / 10) _ hlt]
      rw [show decDigits n = decDigits (n / 10) ++ [Nat.digitChar (n % 10)] from
        by rw [decDigits, if_neg h10]]
      simp [List.append_assoc]

lemma natRepr_toList (n : Nat) : (Nat.repr n).toList = decDigits n := by
  show (List.asString (Nat.toDigits 10 n)).toList = decDigits n
  rw [Nat.toDigits, toDigitsCore_eq_decDigits (n + 1) n [] (by omega)]
  simp [List.asString, String.toList]

lemma digitChar_isDigit (n : Nat) (h : n < 10) :
    (Nat.digitChar n).isDigit = true := by
  interval_cases n <;> decide

lemma digitChar_val (n : Nat) (h : n < 10) : (Nat.digitChar n).toNat - 48 = n := by
  interval_cases n <;> decide

lemma decDigits_all_digit : ∀ (n : Nat), ∀ c ∈ decDigits n, c.isDigit = true := by
  intro n
  induction n using Nat.strong_induction_on with
  | _ n ih =>
    intro c hc
    rw [decDigits] at hc
    by_cases h10 : n < 10
    · rw [if_pos h10] at hc
      simp only [List.mem_singleton] at hc
      exact hc ▸ digitChar_isDigit n h10
    · rw [if_neg h10] at hc
      rcases List.mem_append.mp hc with h | h
      · exact ih (n / 10) (Nat.div_lt_self (by omega) (by omega)) c h
      · simp only [List.mem_singleton] at h
        exact h ▸ digitChar_isDigit (n % 10) (by omega)

lemma decDigits_ne_nil (n : Nat) : decDigits n ≠ [] := by
  rw [decDigits]
  split <;> simp

/-- Decimal evaluation of a digit-character run. -/
def evalDigits (ds : List Char) : Nat :=
  ds.foldl (fun a c => 10 * a + (c.toNat - 48)) 0

lemma evalDigits_decDigits : ∀ (n : Nat), evalDigits (decDigits n) = n := by
  intro n
  induction n using Nat.strong_induction_on with
  | _ n ih =>
    rw [decDigits]
    by_cases h10 : n < 10
    · rw [if_pos h10]
      simp [evalDigits, digitChar_val n h10]
    · rw [if_neg h10]
      have hrec := ih (n / 10) (Nat.div_lt_self (by omega) (by omega))
      simp only [evalDigits, List.foldl_append, List.foldl_cons,
        List.foldl_nil] at hrec ⊢
      rw [hrec, digitChar_val (n % 10) (by omega)]
      omega

/-- The character sequence of `toString` on an `Int`. -/
def intChars : Int → List Char
  | .ofNat m => decDigits m
  | .negSucc m => '-' :: decDigits (m + 1)

lemma toString_int_toList : ∀ (i : Int), (toString i).toList = intChars i
  | .ofNat m => natRepr_toList m
  | .negSucc m => by
    show (("-" ++ Nat.repr (m + 1)).toList) = '-' :: decDigits (m + 1)
    rw [toList_append, natRepr_toList]
    rfl

/-! #### A string-literal scanner over serialized JSON

To separate the endpoint from the serialized parameters inside a cache key,
we track whether a position of the JSON text lies inside a string literal.
The scanner state is `(inside a literal, pending escaping backslash)`; the
`GoodFrom` invariant records that outside string literals `json.dumps`
output never contains an underscore or a backslash, which pins down the
`endpoint ++ "_"` framing uniquely. -/

def scanStep : Bool × Bool → Char → Bool × Bool
  | (false, _), c => (c == '"', false)
  | (true, false), c =>
    if c == '\\' then (true, true)
    else if c == '"' then (false, false)
    else (true, false)
  | (true, true), _ => (true, false)

def scanL (st : Bool × Bool) (s : List Char) : Bool × Bool :=
  s.foldl scanStep st

def GoodFrom : Bool × Bool → List Char → Prop
  | _, [] => True
  | st, c :: cs => (st.1 = false → c ≠ '_' ∧ c ≠ '\\') ∧ GoodFrom (scanStep st c) cs

lemma scanL_nil (st : Bool × Bool) : scanL st [] = st := rfl

lemma scanL_cons (st : Bool × Bool) (c : Char) (cs : List Char) :
    scanL st (c :: cs) = scanL (scanStep st c) cs := rfl

lemma scanL_append (st : Bool × Bool) (a b : List Char) :
    scanL st (a ++ b) = scanL (scanL st a) b :=
  List.foldl_append _ _ _ _

lemma goodFrom_append : ∀ (a : List Char) (st : Bool × Bool) (b : List Char),
    GoodFrom st (a ++ b) ↔ GoodFrom st a ∧ GoodFrom (scanL st a) b
  | [], st, b => by simp [GoodFrom, scanL_nil]
  | c :: a, st, b => by
    have ih := goodFrom_append a (scanStep st c) b
    constructor
    · rintro ⟨h1, h2⟩
      exact ⟨⟨h1, (ih.mp h2).1⟩, by rw [scanL_cons]; exact (ih.mp h2).2⟩
    · rintro ⟨⟨h1, h2⟩, h3⟩
      rw [scanL_cons] at h3
      exact ⟨h1, ih.mpr ⟨h2, h3⟩⟩

lemma scanStep_inside_nonspecial (c : Char) (h1 : (c == '\\') = false)
    (h2 : (c == '"') = false) : scanStep (true, false) c = (true, false) := by
  simp [scanStep, h1, h2]

lemma scanStep_outside (c : Char) : scanStep (false, false) c = (c == '"', false) :=
  rfl

lemma scanL_escapeChars (s : List Char) :
    scanL (true, false) (escapeChars s) = (true, false) := by
  induction s with
  | nil => rfl
  | cons c s ih =>
    show scanL (true, false) (escapeChar c ++ escapeChars s) = (true, false)
    rw [scanL_append]
    by_cases hc : c = '"' ∨ c = '\\'
    · rw [show escapeChar c = ['\\', c] from by simp [escapeChar, hc]]
      rw [show scanL (true, false) ['\\', c] = (true, false) from rfl]
      exact ih
    · push_neg at hc
      have h1 : (c == '\\') = false := by simpa using hc.2
      have h2 : (c == '"') = false := by simpa using hc.1
      rw [show escapeChar c = [c] from by simp [escapeChar, hc.1, hc.2]]
      rw [show scanL (true, false) [c] = scanStep (true, false) c from rfl,
        scanStep_inside_nonspecial c h1 h2]
      exact ih

lemma goodFrom_inside_escape (s : List Char) :
    GoodFrom (true, false) (escapeChars s) := by
  induction s with
  | nil => trivial
  | cons c s ih =>
    show GoodFrom (true, false) (escapeChar c ++ escapeChars s)
    by_cases hc : c = '"' ∨ c = '\\'
    · rw [show escapeChar c = ['\\', c] from by simp [escapeChar, hc]]
      refine ⟨by simp, by simp [scanStep], ?_⟩
      show GoodFrom (scanStep (true, true) c) (escapeChars s)
      exact ih
    · push_neg at hc
      have h1 : (c == '\\') = false := by simpa using hc.2
      have h2 : (c == '"') = false := by simpa using hc.1
      rw [show escapeChar c = [c] from by simp [escapeChar, hc.1, hc.2]]
      refine ⟨by simp, ?_⟩
      show GoodFrom (scanStep (true, false) c) (escapeChars s)
      rw [scanStep_inside_nonspecial c h1 h2]
      exact ih

/-- Characters that keep the scan outside and satisfy the invariant:
anything other than `"`, `_` and `\`. -/
lemma scanL_outside_run (s : List Char)
    (h : ∀ c ∈ s, (c == '"') = false ∧ c ≠ '_' ∧ c ≠ '\\') :
    scanL (false, false) s = (false, false) ∧ GoodFrom (false, false) s := by
  induction s with
  | nil => exact ⟨rfl, trivial⟩
  | cons c s ih =>
    have hc := h c (List.mem_cons_self c s)
    have hrest := ih (fun d hd => h d (List.mem_cons_of_mem c hd))
    constructor
    · rw [scanL_cons, scanStep_outside, hc.1]
      exact hrest.1
    · exact ⟨fun _ => hc.2, by
        rw [scanStep_outside, hc.1]
        exact hrest.2⟩

lemma int_chars_plain (i : Int) :
    ∀ c ∈ (toString i).toList,
      (c == '"') = false ∧ c ≠ '_' ∧ c ≠ '\\' := by
  intro c hc
  rw [toString_int_toList] at hc
  have hdig : c.isDigit = true ∨ c = '-' := by
    cases i with
    | ofNat m => exact Or.inl (decDigits_all_digit m c hc)
    | negSucc m =>
      rcases List.mem_cons.mp hc with h | h
      · exact Or.inr h
      · exact Or.inl (decDigits_all_digit (m + 1) c h)
  rcases hdig with h | h
  · refine ⟨?_, ?_, ?_⟩
    · simp only [beq_eq_false_iff_ne, ne_eq]
      intro hh; rw [hh] at h; exact absurd h (by decide)
    · intro hh; rw [hh] at h; exact absurd h (by decide)
    · intro hh; rw [hh] at h; exact absurd h (by decide)
  · subst h; exact ⟨by decide, by decide, by decide⟩

lemma scan_serPVal (v : PVal) :
    scanL (false, false) (serPVal v) = (false, false)
    ∧ GoodFrom (false, false) (serPVal v) := by
  cases v with
  | pint n => exact scanL_outside_run _ (int_chars_plain n)
  | pbool b =>
    cases b <;>
      exact scanL_outside_run _ (by intro c hc; fin_cases hc <;> refine ⟨by decide, by decide, by decide⟩)
  | pstr s =>
    constructor
    · show scanL (false, false) ('"' :: (escapeChars s.toList ++ ['"'])) = _
      rw [scanL_cons, scanStep_outside]
      simp only [beq_self_eq_true]
      rw [scanL_append, scanL_escapeChars]
      rfl
    · refine ⟨fun _ => ⟨by decide, by decide⟩, ?_⟩
      rw [scanStep_outside]
      simp only [beq_self_eq_true]
      show GoodFrom (true, false) (escapeChars s.toList ++ ['"'])
      rw [goodFrom_append]
      exact ⟨goodFrom_inside_escape s.toList,
        by rw [scanL_escapeChars]; exact ⟨by simp, trivial⟩⟩

lemma scan_serPair (p : String × PVal) :
    scanL (false, false) (serPair p) = (false, false)
    ∧ GoodFrom (false, false) (serPair p) := by
  have hv := scan_serPVal p.2
  constructor
  · show scanL (false, false)
        ('"' :: (escapeChars p.1.toList ++ '"' :: ':' :: ' ' :: serPVal p.2)) = _
    rw [scanL_cons, scanStep_outside]
    simp only [beq_self_eq_true]
    rw [scanL_append, scanL_escapeChars]
    show scanL (scanStep (scanStep (scanStep (true, false) '"') ':') ' ')
        (serPVal p.2) = _
    simpa [scanStep] using hv.1
  · refine ⟨fun _ => ⟨by decide, by decide⟩, ?_⟩
    rw [scanStep_outside]
    simp only [beq_self_eq_true]
    show GoodFrom (true, false)
      (escapeChars p.1.toList ++ '"' :: ':' :: ' ' :: serPVal p.2)
    rw [goodFrom_append]
    refine ⟨goodFrom_inside_escape p.1.toList, ?_⟩
    rw [scanL_escapeChars]
    refine ⟨by simp, ?_⟩
    refine ⟨by simp [scanStep], ?_⟩
    refine ⟨by simp [scanStep], ?_⟩
    simpa [scanStep] using hv.2

lemma scan_pairsChars : ∀ (l : List (String × PVal)),
    scanL (false, false) (pairsChars l) = (false, false)
    ∧ GoodFrom (false, false) (pairsChars l)
  | [] => ⟨rfl, trivial⟩
  | [p] => scan_serPair p
  | p :: q :: rest => by
    have hp := scan_serPair p
    have hrest := scan_pairsChars (q :: rest)
    show scanL (false, false) (serPair p ++ ',' :: ' ' :: pairsChars (q :: rest))
          = (false, false)
        ∧ GoodFrom (false, false) (serPair p ++ ',' :: ' ' :: pairsChars (q :: rest))
    constructor
    · rw [scanL_append, hp.1]
      simpa [scanL_cons, scanStep] using hrest.1
    · rw [goodFrom_append]
      refine ⟨hp.2, ?_⟩
      rw [hp.1]
      refine ⟨by simp, ?_⟩
      refine ⟨by simp [scanStep], ?_⟩
      simpa [scanStep] using hrest.2

lemma scan_dumpsChars (l : List (String × PVal)) :
    scanL (false, false) (dumpsChars l) = (false, false)
    ∧ GoodFrom (false, false) (dumpsChars l) := by
  have h := scan_pairsChars l
  constructor
  · show scanL (false, false) ('\x7b' :: (pairsChars l ++ ['\x7d'])) = _
    rw [scanL_cons, scanStep_outside]
    simp only [show ('\x7b' == '"') = false from by decide]
    rw [scanL_append, h.1]
    rfl
  · refine ⟨fun _ => ⟨by decide, by decide⟩, ?_⟩
    rw [scanStep_outside]
    simp only [show ('\x7b' == '"') = false from by decide]
    show GoodFrom (false, false) (pairsChars l ++ ['\x7d'])
    rw [goodFrom_append, h.1]
    exact ⟨h.2, ⟨by simp, trivial⟩⟩

/-- Two scans of the same characters from states on opposite sides of a
string literal (with no pending escape) stay on opposite sides, provided
each scan's invariant excludes backslashes at its outside positions. -/
lemma scanL_flip : ∀ (s : List Char) (stA stB : Bool × Bool),
    stA.1 ≠ stB.1 → stA.2 = false → stB.2 = false →
    GoodFrom stA s → GoodFrom stB s →
    (scanL stA s).1 ≠ (scanL stB s).1
  | [], _, _, h, _, _, _, _ => h
  | c :: s, stA, stB, h, hA2, hB2, hGA, hGB => by
    obtain ⟨a1, a2⟩ := stA
    obtain ⟨b1, b2⟩ := stB
    simp only at hA2 hB2
    subst hA2; subst hB2
    rw [scanL_cons, scanL_cons]
    -- one state is inside, the other outside
    cases a1 with
    | false =>
      have hb1 : b1 = true := by
        cases b1 with
        | false => exact absurd rfl h
        | true => rfl
      subst hb1
      have hc : c ≠ '_' ∧ c ≠ '\\' := hGA.1 rfl
      have hbs : (c == '\\') = false := by simpa using hc.2
      by_cases hq : (c == '"') = true
      · refine scanL_flip s _ _ ?_ ?_ ?_ ?_ ?_
        · rw [scanStep_outside, hq]
          simp [scanStep, hbs, hq]
        · rfl
        · simp [scanStep, hbs, hq]
        · exact hGA.2
        · exact hGB.2
      · have hq' : (c == '"') = false := by simpa using hq
        refine scanL_flip s _ _ ?_ ?_ ?_ ?_ ?_
        · rw [scanStep_outside, hq']
          simp [scanStep, hbs, hq']
        · rfl
        · simp [scanStep, hbs, hq']
        · exact hGA.2
        · exact hGB.2
    | true =>
      have hb1 : b1 = false := by
        cases b1 with
        | true => exact absurd rfl h
        | false => rfl
      subst hb1
      have hc : c ≠ '_' ∧ c ≠ '\\' := hGB.1 rfl
      have hbs : (c == '\\') = false := by simpa using hc.2
      by_cases hq : (c == '"') = true
      · refine scanL_flip s _ _ ?_ ?_ ?_ ?_ ?_
        · rw [scanStep_outside, hq]
          simp [scanStep, hbs, hq]
        · simp [scanStep, hbs, hq]
        · rfl
        · exact hGA.2
        · exact hGB.2
      · have hq' : (c == '"') = false := by simpa using hq
        refine scanL_flip s _ _ ?_ ?_ ?_ ?_ ?_
        · rw [scanStep_outside, hq']
          simp [scanStep, hbs, hq']
        · simp [scanStep, hbs, hq']
        · rfl
        · exact hGA.2
        · exact hGB.2

/-- A `json.dumps` object text never contains an underscore immediately
followed by a complete `json.dumps` object text: the framing underscore of
`_get_cache_key` therefore cannot be imitated inside the serialized
parameters. -/
theorem dumps_no_underscore_suffix (l1 l2 : List (String × PVal))
    (A : List Char) : dumpsChars l1 ≠ A ++ '_' :: dumpsChars l2 := by
  intro h
  have hscan1 := (scan_dumpsChars l1).1
  have hgood1 := (scan_dumpsChars l1).2
  have hscan2 := (scan_dumpsChars l2).1
  have hgood2 := (scan_dumpsChars l2).2
  rw [h] at hscan1 hgood1
  rw [goodFrom_append] at hgood1
  obtain ⟨-, hgood1'⟩ := hgood1
  rw [scanL_append] at hscan1
  set st := scanL (false, false) A with hst
  -- the scan must be inside a string literal at the underscore
  have hin : st.1 = true := by
    by_contra hout
    have := hgood1'.1 (by simpa using hout)
    exact this.1 rfl
  obtain ⟨s1, s2⟩ := st
  simp only at hin
  subst hin
  -- after consuming the underscore the state is (inside, no escape)
  have hstep : scanStep (true, s2) '_' = (true, false) := by
    cases s2 <;> simp [scanStep]
  rw [scanL_cons, hstep] at hscan1
  have hgood2' : GoodFrom (true, false) (dumpsChars l2) := by
    have := hgood1'.2
    rwa [hstep] at this
  have hflip := scanL_flip (dumpsChars l2) (true, false) (false, false)
    (by simp) rfl rfl hgood2' hgood2
  rw [hscan1, hscan2] at hflip
  exact hflip rfl

/-! #### A verified parser for the serialized parameters

The parser below inverts `dumpsChars` on its image; with the scanner lemma
above it makes the cache-key derivation injective. -/

def parseStrBody : List Char → Option (List Char × List Char)
  | [] => none
  | ['\\'] => none
  | '\\' :: d :: rest2 => (parseStrBody rest2).map (fun r => (d :: r.1, r.2))
  | c :: rest =>
    if c == '"' then some ([], rest)
    else (parseStrBody rest).map (fun r => (c :: r.1, r.2))

def collectDigits : List Char → List Char × List Char
  | [] => ([], [])
  | c :: cs =>
    if c.isDigit then
      let r := collectDigits cs
      (c :: r.1, r.2)
    else ([], c :: cs)

def parseVal : List Char → Option (PVal × List Char)
  | [] => none
  | c :: rest =>
    if c == '"' then
      (parseStrBody rest).map (fun r => (.pstr (String.mk r.1), r.2))
    else if c == '-' then
      let r := collectDigits rest
      if r.1.isEmpty then none
      else some (.pint (-(evalDigits r.1 : Int)), r.2)
    else if c == 't' then
      match rest with
      | 'r' :: 'u' :: 'e' :: rest2 => some (.pbool true, rest2)
      | _ => none
    else if c == 'f' then
      match rest with
      | 'a' :: 'l' :: 's' :: 'e' :: rest2 => some (.pbool false, rest2)
      | _ => none
    else
      let r := collectDigits (c :: rest)
      if r.1.isEmpty then none else some (.pint (evalDigits r.1), r.2)

def parsePair : List Char → Option ((String × PVal) × List Char)
  | '"' :: rest =>
    (parseStrBody rest).bind (fun r =>
      match r.2 with
      | ':' :: ' ' :: rest2 =>
        (parseVal rest2).map (fun q => ((String.mk r.1, q.1), q.2))
      | _ => none)
  | _ => none

def parsePairsLoop : Nat → List Char → Option (List (String × PVal))
  | 0, _ => none
  | fuel + 1, s =>
    (parsePair s).bind (fun r =>
      match r.2 with
      | ',' :: ' ' :: rest => (parsePairsLoop fuel rest).map (fun l => r.1 :: l)
      | ['\x7d'] => some [r.1]
      | _ => none)

def parseDumps (s : List Char) : Option (List (String × PVal)) :=
  match s with
  | '\x7b' :: rest =>
    if rest == ['\x7d'] then some [] else parsePairsLoop s.length rest
  | _ => none

lemma string_mk_toList (s : String) : String.mk s.toList = s := rfl

lemma parseStrBody_cons_plain (c : Char) (rest : List Char) (h : c ≠ '\\') :
    parseStrBody (c :: rest) =
      if c == '"' then some ([], rest)
      else (parseStrBody rest).map (fun r => (c :: r.1, r.2)) := by
  simp [parseStrBody, h]

lemma parseStrBody_escape : ∀ (s rest : List Char),
    parseStrBody (escapeChars s ++ '"' :: rest) = some (s, rest)
  | [], rest => rfl
  | c :: s, rest => by
    by_cases hc : c = '"' ∨ c = '\\'
    · rw [show escapeChars (c :: s) = '\\' :: c :: escapeChars s from by
        simp [escapeChars, escapeChar, hc]]
      show (parseStrBody (escapeChars s ++ '"' :: rest)).map
          (fun r => (c :: r.1, r.2)) = some (c :: s, rest)
      rw [parseStrBody_escape s rest]
      rfl
    · push_neg at hc
      have h1 : (c == '"') = false := by simpa using hc.1
      rw [show escapeChars (c :: s) = c :: escapeChars s from by
        simp [escapeChars, escapeChar, hc.1, hc.2]]
      show parseStrBody (c :: (escapeChars s ++ '"' :: rest)) = _
      rw [parseStrBody_cons_plain c _ hc.2, if_neg (by simp [h1]),
        parseStrBody_escape s rest]
      rfl

lemma collectDigits_append : ∀ (ds rest : List Char),
    (∀ c ∈ ds, c.isDigit = true) →
    (∀ c, rest.head? = some c → c.isDigit = false) →
    collectDigits (ds ++ rest) = (ds, rest)
  | [], [], _, _ => rfl
  | [], c :: rest, _, hrest => by
    have hc := hrest c rfl
    show collectDigits (c :: rest) = ([], c :: rest)
    simp only [collectDigits, hc, Bool.false_eq_true, if_false]
  | c :: ds, rest, hds, hrest => by
    have hc := hds c (List.mem_cons_self c ds)
    show collectDigits (c :: (ds ++ rest)) = (c :: ds, rest)
    simp only [collectDigits, hc, if_true]
    rw [collectDigits_append ds rest (fun d hd => hds d (List.mem_cons_of_mem c hd))
      hrest]

lemma digit_char_not_special (c : Char) (h : c.isDigit = true) :
    (c == '"') = false ∧ (c == '-') = false ∧ (c == 't') = false
    ∧ (c == 'f') = false := by
  refine ⟨?_, ?_, ?_, ?_⟩ <;>
    · simp only [beq_eq_false_iff_ne, ne_eq]
      intro hh; rw [hh] at h; exact absurd h (by decide)

lemma parseVal_roundtrip (v : PVal) (rest : List Char)
    (hrest : ∀ c, rest.head? = some c → c.isDigit = false) :
    parseVal (serPVal v ++ rest) = some (v, rest) := by
  cases v with
  | pstr s =>
    rw [show serPVal (.pstr s) ++ rest
        = '"' :: (escapeChars s.toList ++ '"' :: rest) from by
      show ('"' :: (escapeChars s.toList ++ ['"'])) ++ rest = _
      simp [List.append_assoc]]
    show (parseStrBody (escapeChars s.toList ++ '"' :: rest)).map
        (fun r => (PVal.pstr (String.mk r.1), r.2)) = _
    rw [parseStrBody_escape]
    simp [string_mk_toList]
  | pbool b => cases b <;> rfl
  | pint n =>
    cases n with
    | ofNat m =>
      show parseVal ((toString (Int.ofNat m)).toList ++ rest) = _
      rw [toString_int_toList]
      rcases hd : decDigits m with _ | ⟨c, ds⟩
      · exact absurd hd (decDigits_ne_nil m)
      · have hcd : c.isDigit = true :=
          decDigits_all_digit m c (by rw [hd]; exact List.mem_cons_self c ds)
        obtain ⟨h1, h2, h3, h4⟩ := digit_char_not_special c hcd
        show parseVal (intChars (Int.ofNat m) ++ rest) = _
        rw [show intChars (Int.ofNat m) = c :: ds from hd, List.cons_append]
        simp only [parseVal, h1, h2, h3, h4, Bool.false_eq_true, if_false]
        rw [show c :: (ds ++ rest) = (c :: ds) ++ rest from rfl, ← hd,
          collectDigits_append (decDigits m) rest (decDigits_all_digit m) hrest]
        simp [decDigits_ne_nil m, evalDigits_decDigits m]
    | negSucc m =>
      show parseVal ((toString (Int.negSucc m)).toList ++ rest) = _
      rw [toString_int_toList]
      show parseVal (('-' :: decDigits (m + 1)) ++ rest) = _
      rw [List.cons_append]
      show (let r := collectDigits (decDigits (m + 1) ++ rest);
            if r.1.isEmpty then none
            else some (PVal.pint (-(evalDigits r.1 : Int)), r.2))
          = some (PVal.pint (Int.negSucc m), rest)
      rw [collectDigits_append (decDigits (m + 1)) rest
        (decDigits_all_digit (m + 1)) hrest]
      simp only [decDigits_ne_nil (m + 1), List.isEmpty_eq_true,
        Bool.false_eq_true, if_false, evalDigits_decDigits (m + 1)]
      rw [show (Int.negSucc m) = -((m : Int) + 1) from Int.negSucc_eq m]
      norm_num

lemma parsePair_roundtrip (p : String × PVal) (rest : List Char)
    (hrest : ∀ c, rest.head? = some c → c.isDigit = false) :
    parsePair (serPair p ++ rest) = some (p, rest) := by
  obtain ⟨k, v⟩ := p
  rw [show serPair (k, v) ++ rest
      = '"' :: (escapeChars k.toList ++ '"' :: (':' :: ' ' :: (serPVal v ++ rest)))
      from by
    show ('"' :: (escapeChars k.toList ++ '"' :: ':' :: ' ' :: serPVal v)) ++ rest = _
    simp [List.append_assoc]]
  show (parseStrBody
      (escapeChars k.toList ++ '"' :: (':' :: ' ' :: (serPVal v ++ rest)))).bind
        (fun r =>
          match r.2 with
          | ':' :: ' ' :: rest2 =>
            (parseVal rest2).map (fun q => ((String.mk r.1, q.1), q.2))
          | _ => none) = _
  rw [parseStrBody_escape]
  show (parseVal (serPVal v ++ rest)).map
      (fun q => ((String.mk k.toList, q.1), q.2)) = _
  rw [parseVal_roundtrip v rest hrest]
  simp [string_mk_toList]

lemma parsePairsLoop_roundtrip : ∀ (l : List (String × PVal)) (fuel : Nat),
    l ≠ [] → l.length ≤ fuel →
    parsePairsLoop fuel (pairsChars l ++ ['\x7d']) = some l
  | [], _, h, _ => absurd rfl h
  | [p], 0, _, hlen => by simp at hlen
  | [p], fuel + 1, _, _ => by
    show (parsePair (serPair p ++ ['\x7d'])).bind _ = _
    rw [parsePair_roundtrip p ['\x7d']
      (by intro c hc; simp at hc; subst hc; decide)]
    rfl
  | p :: q :: t, 0, _, hlen => by simp at hlen
  | p :: q :: t, fuel + 1, _, hlen => by
    show (parsePair (pairsChars (p :: q :: t) ++ ['\x7d'])).bind _ = _
    rw [show pairsChars (p :: q :: t) ++ ['\x7d']
        = serPair p ++ (',' :: ' ' :: (pairsChars (q :: t) ++ ['\x7d'])) from by
      show (serPair p ++ ',' :: ' ' :: pairsChars (q :: t)) ++ ['\x7d'] = _
      simp [List.append_assoc]]
    rw [parsePair_roundtrip p _ (by intro c hc; simp at hc; subst hc; decide)]
    show (parsePairsLoop fuel (pairsChars (q :: t) ++ ['\x7d'])).map _ = _
    rw [parsePairsLoop_roundtrip (q :: t) fuel (by simp)
      (by simp at hlen ⊢; omega)]
    rfl

lemma pairsChars_length_ge : ∀ (l : List (String × PVal)),
    l.length ≤ (pairsChars l).length
  | [] => by simp [pairsChars]
  | [p] => by simp [pairsChars, serPair]
  | p :: q :: t => by
    have ih := pairsChars_length_ge (q :: t)
    show (p :: q :: t).length ≤ (serPair p ++ ',' :: ' ' :: pairsChars (q :: t)).length
    have hp : 1 ≤ (serPair p).length := by simp [serPair]
    simp only [List.length_cons, List.length_append] at ih ⊢
    omega

lemma parseDumps_roundtrip (l : List (String × PVal)) :
    parseDumps (dumpsChars l) = some l := by
  cases l with
  | nil => rfl
  | cons p t =>
    have hne : pairsChars (p :: t) ≠ [] := by
      cases t <;> simp [pairsChars, serPair]
    have hbeq : ((pairsChars (p :: t) ++ ['\x7d']) == ['\x7d']) = false := by
      rw [beq_eq_false_iff_ne]
      intro hcontra
      have hlen := congrArg List.length hcontra
      simp at hlen
      exact hne hlen
    show (if (pairsChars (p :: t) ++ ['\x7d']) == ['\x7d'] then some []
          else parsePairsLoop ('\x7b' :: (pairsChars (p :: t) ++ ['\x7d'])).length
            (pairsChars (p :: t) ++ ['\x7d'])) = _
    rw [hbeq]
    simp only [Bool.false_eq_true, if_false]
    refine parsePairsLoop_roundtrip (p :: t) _ (by simp) ?_
    have h1 := pairsChars_length_ge (p :: t)
    simp only [List.length_cons, List.length_append] at h1 ⊢
    omega

lemma dumpsChars_injective {l1 l2 : List (String × PVal)}
    (h : dumpsChars l1 = dumpsChars l2) : l1 = l2 := by
  have h1 := parseDumps_roundtrip l1
  rw [h, parseDumps_roundtrip l2] at h1
  exact (Option.some.inj h1).symm

lemma string_toList_inj {s t : String} (h : s.toList = t.toList) : s = t := by
  have h2 := congrArg String.mk h
  rwa [string_mk_toList, string_mk_toList] at h2

/-- `_get_cache_key` at the character level: the endpoint's characters, an
underscore, then the serialized sorted parameters (empty for a falsy dict). -/
lemma key_toList (e : String) (ps : List (String × PVal)) :
    (get_cache_key e ps).toList
      = e.toList ++ '_' ::
        (if ps.isEmpty then ([] : List Char)
         else dumpsChars (ps.insertionSort paramLe)) := by
  by_cases hE : ps.isEmpty
  · rw [if_pos hE]
    show (e ++ "_" ++ (if ps.isEmpty then "" else dumpsSorted ps)).toList = _
    rw [if_pos hE, toList_append, toList_append]
    show e.toList ++ ['_'] ++ ([] : List Char) = e.toList ++ '_' :: ([] : List Char)
    simp
  · rw [if_neg hE]
    show (e ++ "_" ++ (if ps.isEmpty then "" else dumpsSorted ps)).toList = _
    rw [if_neg hE, toList_append, toList_append]
    show e.toList ++ ['_'] ++ dumpsChars (ps.insertionSort paramLe)
        = e.toList ++ '_' :: dumpsChars (ps.insertionSort paramLe)
    simp [List.append_assoc]

/-- A key built from an empty parameter dict (ending in the framing
underscore) never coincides with one built from a serialized dict (ending
in a closing brace). -/
lemma append_underscore_dumps_ne_plain (E1 E2 : List Char)
    (l2 : List (String × PVal)) :
    E1 ++ '_' :: ([] : List Char) ≠ E2 ++ '_' :: dumpsChars l2 := by
  intro hL
  have hLft : (E1 ++ '_' :: ([] : List Char)).getLast? = some '_' :=
    List.getLast?_concat _
  rw [hL, show E2 ++ '_' :: dumpsChars l2
      = ((E2 ++ '_' :: '\x7b' :: pairsChars l2) ++ ['\x7d']) from by
    simp [dumpsChars], List.getLast?_concat] at hLft
  exact absurd hLft (by decide)

/-- Two keys with serialized dicts of different lengths cannot coincide:
the longer serialization would contain `'_' ++ dumps` as a suffix, which
`dumps_no_underscore_suffix` excludes. -/
lemma append_underscore_dumps_lt (E1 E2 : List Char)
    (l1 l2 : List (String × PVal))
    (hL : E1 ++ '_' :: dumpsChars l1 = E2 ++ '_' :: dumpsChars l2)
    (hlt : (dumpsChars l1).length < (dumpsChars l2).length) : False := by
  have hlen := congrArg List.length hL
  simp only [List.length_append, List.length_cons] at hlen
  have hE1len : E2.length + 1 ≤ E1.length := by omega
  have hdropL : List.drop (E2.length + 1) (E1 ++ '_' :: dumpsChars l1)
      = E1.drop (E2.length + 1) ++ '_' :: dumpsChars l1 := by
    rw [List.drop_append_eq_append_drop, Nat.sub_eq_zero_of_le hE1len,
      List.drop_zero]
  have hdropR : List.drop (E2.length + 1) (E2 ++ '_' :: dumpsChars l2)
      = dumpsChars l2 := by
    rw [List.drop_append_eq_append_drop,
      List.drop_eq_nil_of_le (Nat.le_succ E2.length),
      Nat.add_sub_cancel_left, List.nil_append, List.drop_succ_cons,
      List.drop_zero]
  have hdrop := congrArg (List.drop (E2.length + 1)) hL
  rw [hdropL, hdropR] at hdrop
  exact dumps_no_underscore_suffix l2 l1 (E1.drop (E2.length + 1)) hdrop.symm

/-- `_get_cache_key` is injective up to canonical parameter order: equal
keys force the same endpoint and the same sorted parameter list. -/
lemma get_cache_key_inj {e1 e2 : String} {ps1 ps2 : List (String × PVal)}
    (h : get_cache_key e1 ps1 = get_cache_key e2 ps2) :
    e1 = e2 ∧ ps1.insertionSort paramLe = ps2.insertionSort paramLe := by
  have hL := congrArg String.toList h
  rw [key_toList, key_toList] at hL
  by_cases h1 : ps1.isEmpty <;> by_cases h2 : ps2.isEmpty
  · rw [if_pos h1, if_pos h2] at hL
    have hlen : e1.toList.length = e2.toList.length := by
      have h3 := congrArg List.length hL
      simp only [List.length_append, List.length_cons] at h3
      omega
    obtain ⟨hE, -⟩ := List.append_inj hL hlen
    have p1nil : ps1 = [] := by
      cases ps1 with
      | nil => rfl
      | cons a t => simp at h1
    have p2nil : ps2 = [] := by
      cases ps2 with
      | nil => rfl
      | cons a t => simp at h2
    rw [p1nil, p2nil]
    exact ⟨string_toList_inj hE, rfl⟩
  · rw [if_pos h1, if_neg h2] at hL
    exact absurd hL (append_underscore_dumps_ne_plain _ _ _)
  · rw [if_neg h1, if_pos h2] at hL
    exact absurd hL.symm (append_underscore_dumps_ne_plain _ _ _)
  · rw [if_neg h1, if_neg h2] at hL
    rcases Nat.lt_trichotomy (dumpsChars (ps1.insertionSort paramLe)).length
      (dumpsChars (ps2.insertionSort paramLe)).length with hlt | heq | hgt
    · exact absurd hL (fun hh => append_underscore_dumps_lt _ _ _ _ hh hlt)
    · have hElen : e1.toList.length = e2.toList.length := by
        have h3 := congrArg List.length hL
        simp only [List.length_append, List.length_cons] at h3
        omega
      obtain ⟨hE, hD⟩ := List.append_inj hL hElen
      exact ⟨string_toList_inj hE, dumpsChars_injective (List.cons.inj hD).2⟩
    · exact absurd hL
        (fun hh => append_underscore_dumps_lt _ _ _ _ hh.symm hgt)

/-- C6 counterexample: the cache key ignores the request method, so two
requests that differ only in method map to the same key, refuting the
claim's "requests that differ in method ... map to distinct keys". -/
theorem cache_key_ignores_method_counterexample :
    requestCacheKey "GET" "servers" [] = requestCacheKey "POST" "servers" []
    ∧ "GET" ≠ "POST" :=
  ⟨rfl, by decide⟩

/-- C6 (amended): the cache key is a deterministic and (up to parameter
ordering) injective function of the endpoint and the query parameters
alone: two requests map to the same key exactly when they have the same
endpoint and the same parameter dict — so requests that differ in endpoint
or in parameters map to distinct keys, while the HTTP method, not being
part of the key, never separates them. -/
theorem cache_key_deterministic (m1 m2 e1 e2 : String)
    (ps1 ps2 : List (String × PVal))
    (hnd : (ps1.map Prod.fst).Nodup) :
    requestCacheKey m1 e1 ps1 = requestCacheKey m2 e2 ps2
      ↔ (e1 = e2 ∧ ps1.Perm ps2) := by
  constructor
  · intro h
    obtain ⟨hE, hsort⟩ := get_cache_key_inj h
    have h2 : List.Perm (ps1.insertionSort paramLe) ps2 := by
      rw [hsort]
      exact List.perm_insertionSort paramLe ps2
    exact ⟨hE, (List.perm_insertionSort paramLe ps1).symm.trans h2⟩
  · rintro ⟨hE, hperm⟩
    subst hE
    have hsort : ps1.insertionSort paramLe = ps2.insertionSort paramLe := by
      refine sorted_perm_eq_of_nodup_keys _ _
        (List.sorted_insertionSort paramLe ps1)
        (List.sorted_insertionSort paramLe ps2)
        (((List.perm_insertionSort paramLe ps1).trans hperm).trans
          (List.perm_insertionSort paramLe ps2).symm) ?_
      exact (((List.perm_insertionSort paramLe ps1).map Prod.fst).nodup_iff).mpr
        hnd
    have hempty : ps1.isEmpty = ps2.isEmpty := by
      cases ps1 with
      | nil => simp [hperm.symm.eq_nil]
      | cons a t =>
        cases ps2 with
        | nil => exact absurd hperm.eq_nil (by simp)
        | cons b u => simp
    simp [requestCacheKey, get_cache_key, dumpsSorted, hsort, hempty]

/-- Witness for `cache_key_deterministic`: the `servers` listing parameters
in two different orders, under two different methods, give one key; and the
keys for page 1 and page 2 of the listing are distinct. -/
theorem cache_key_deterministic_witness :
    (([("page", PVal.pint 1), ("per_page", PVal.pint 10)].map
        Prod.fst).Nodup
      ∧ requestCacheKey "GET" "servers"
          [("page", PVal.pint 1), ("per_page", PVal.pint 10)]
        = requestCacheKey "POST" "servers"
          [("per_page", PVal.pint 10), ("page", PVal.pint 1)])
    ∧ requestCacheKey "GET" "servers" [("page", PVal.pint 1)]
        ≠ requestCacheKey "GET" "servers" [("page", PVal.pint 2)] :=
  ⟨⟨by decide,
    (cache_key_deterministic "GET" "POST" "servers" "servers" _ _
        (by decide)).mpr ⟨rfl, List.Perm.swap _ _ _⟩⟩,
   fun h => absurd
    ((cache_key_deterministic "GET" "GET" "servers" "servers" _ _
        (by decide)).mp h).2 (by decide)⟩

/-! ### Upstream requests and exceptions (`PterodactylAPI._request`,
app.py lines 106-147)

The body of one upstream HTTP exchange is an oracle value: either a
network-level failure or a response with a status code and a body.  Python
exceptions are explicit constructors; `requests.exceptions.Timeout`,
`HTTPError`, `ConnectionError` and `JSONDecodeError` are all subclasses of
`RequestException` (for `JSONDecodeError` since requests 2.27, the version
family this application runs on), while `KeyError`/`TypeError`/
`AttributeError` are not. -/

inductive ResponseBody where
  | empty
  | malformed
  | body (v : Json)

inductive PyExc where
  | timeout
  | httpError (status : Nat) (respBody : ResponseBody)
  | connectionError
  | jsonDecodeError
  | keyError (key : String)
  | typeError
  | attributeError

/-- Whether the exception is an instance of
`requests.exceptions.RequestException` (the class every upstream
communication failure raised in this code belongs to). -/
def PyExc.isRequestException : PyExc → Bool
  | .timeout => true
  | .httpError _ _ => true
  | .connectionError => true
  | .jsonDecodeError => true
  | _ => false

inductive UpstreamOutcome where
  | timeout
  | connectionError
  | response (status : Nat) (respBody : ResponseBody)

/-- `response.json() if response.content else {}` (app.py line 124): an
empty body yields `{}`, a malformed body raises `JSONDecodeError`. -/
def parseBodyGuarded : ResponseBody → Except PyExc Json
  | .empty => .ok (.jobj [])
  | .malformed => .error .jsonDecodeError
  | .body v => .ok v

/-- Plain `response.json()` (app.py line 168, inside `get_all_data`): an
empty body also raises `JSONDecodeError`. -/
def parseBodyRaw : ResponseBody → Except PyExc Json
  | .empty => .error .jsonDecodeError
  | .malformed => .error .jsonDecodeError
  | .body v => .ok v

def timeoutMsg : Json := .jstr "Request to the panel API timed out."

def criticalMsg : Json :=
  .jstr "A critical error occurred while communicating with the Pterodactyl panel."

def rateLimitHitMsg : Json :=
  .jstr "API rate limit hit. Please try again in a moment."

/-- The error message built by the `HTTPError` handler (app.py lines
135-144): start from the f-string fallback, then try
`e.response.json().get('errors', [])` and, if truthy, `errors[0]['detail']`;
every exception in that attempt is swallowed by the bare `except`. -/
def httpErrorMsg (status : Nat) (rbody : ResponseBody) : Json :=
  let fallback : Json :=
    .jstr ("API request failed with status " ++ toString status ++ ".")
  match rbody with
  | .body (.jobj fs) =>
    match List.lookup "errors" fs with
    | some v =>
      if v.truthy then
        match v with
        | .jarr (.jobj efs :: _) =>
          match List.lookup "detail" efs with
          | some d => d
          | none => fallback
        | _ => fallback
      else fallback
    | none => fallback
  | _ => fallback

/-- The value each `except` clause of `_request` assigns (app.py lines
132-147); only `RequestException` constructors reach it. -/
def excMessage : PyExc → Json
  | .timeout => timeoutMsg
  | .httpError status rbody => httpErrorMsg status rbody
  | _ => criticalMsg

/-- `(data, error)` pair returned by the API-client methods. -/
abbrev ApiResult := Option Json × Option Json

/-- The `try` block of `_request` (app.py lines 113-130): perform the
upstream call, special-case upstream 429, `raise_for_status()` (raises
`HTTPError` iff status ≥ 400), parse the body, and cache the result of a
cacheable GET. -/
def requestTryBody (method : String) (useCache : Bool) (cacheKey : String)
    (cache : CacheMap) (now : Time) (outcome : UpstreamOutcome) :
    Except PyExc (ApiResult × CacheMap) :=
  match outcome with
  | .timeout => .error .timeout
  | .connectionError => .error .connectionError
  | .response status rbody =>
    if status == 429 then
      .ok ((none, some rateLimitHitMsg), cache)
    else if 400 ≤ status then
      .error (.httpError status rbody)
    else
      match parseBodyGuarded rbody with
      | .error e => .error e
      | .ok result =>
        if method == "GET" && useCache then
          .ok ((some result, none), cachePut cache cacheKey ⟨result, now⟩)
        else
          .ok ((some result, none), cache)

/-- `PterodactylAPI._request` (app.py lines 106-147): serve a valid cached
entry for GETs, otherwise run the `try` block and convert every
`RequestException` into a `(None, message)` return, leaving any other
exception to propagate. -/
def pyRequest (endpoint method : String) (params : List (String × PVal))
    (useCache : Bool) (cache : CacheMap) (now : Time)
    (outcome : UpstreamOutcome) : Except PyExc (ApiResult × CacheMap) :=
  let cacheKey := get_cache_key endpoint params
  if method == "GET" && useCache
      && is_cache_valid cache cacheKey now cache_timeout then
    match cache.lookup cacheKey with
    | some e => .ok ((some e.data, none), cache)
    | none => .error (.keyError cacheKey)
  else
    match requestTryBody method useCache cacheKey cache now outcome with
    | .ok r => .ok r
    | .error e =>
      if e.isRequestException then .ok ((none, some (excMessage e)), cache)
      else .error e

/-- C3 counterexample: a GET whose upstream response has status 304 (not a
2xx success — `raise_for_status` only raises for 4xx/5xx) is stored in the
cache, refuting "an entry is stored only when ... the upstream response is
successful (2xx)". -/
theorem cache_population_2xx_counterexample :
    pyRequest "servers" "GET" [] true [] 0 (.response 304 .empty)
      = .ok ((some (Json.jobj []), none),
          [("servers_", ⟨Json.jobj [], 0⟩)])
    ∧ ¬ (200 ≤ 304 ∧ 304 < 300) :=
  ⟨rfl, by omega⟩

/-- C3 (amended): for every upstream request, an entry is stored in the
cache only when the method is GET with caching enabled and the upstream
response passes `raise_for_status` — i.e. has status < 400 (not only 2xx:
3xx statuses such as 304 are cached too) and is not a 429 — with a
parseable body; results of POST/PATCH/DELETE requests are never cached, and
when the upstream fetch fails (timeout, connection error, or HTTP error)
the cache is left unchanged, so a subsequent request still reaches
upstream. -/
theorem cache_population_only_on_success (endpoint method : String)
    (params : List (String × PVal)) (useCache : Bool) (cache : CacheMap)
    (now : Time) (outcome : UpstreamOutcome) (result : ApiResult)
    (cache' : CacheMap)
    (hok : pyRequest endpoint method params useCache cache now outcome
      = .ok (result, cache'))
    (hne : cache' ≠ cache) :
    method = "GET" ∧ useCache = true
    ∧ ∃ status rbody, outcome = .response status rbody
        ∧ status < 400 ∧ status ≠ 429 ∧ rbody ≠ .malformed := by
  unfold pyRequest at hok
  by_cases hhit : (method == "GET" && useCache
      && is_cache_valid cache (get_cache_key endpoint params) now
        cache_timeout) = true
  · rw [if_pos hhit] at hok
    cases hl : List.lookup (get_cache_key endpoint params) cache with
    | none => rw [hl] at hok; exact absurd hok (by simp)
    | some e =>
      rw [hl] at hok
      exact absurd (congrArg (fun r => r.2) (Except.ok.inj hok)).symm hne
  · rw [if_neg hhit] at hok
    cases outcome with
    | timeout =>
      simp only [requestTryBody, PyExc.isRequestException, if_pos] at hok
      exact absurd (congrArg (fun r => r.2) (Except.ok.inj hok)).symm hne
    | connectionError =>
      simp only [requestTryBody, PyExc.isRequestException, if_pos] at hok
      exact absurd (congrArg (fun r => r.2) (Except.ok.inj hok)).symm hne
    | response status rbody =>
      simp only [requestTryBody] at hok
      by_cases h429 : status = 429
      · simp only [h429, beq_self_eq_true, if_pos] at hok
        exact absurd (congrArg (fun r => r.2) (Except.ok.inj hok)).symm hne
      · rw [if_neg (by simpa using h429)] at hok
        by_cases h400 : 400 ≤ status
        · rw [if_pos h400] at hok
          simp only [PyExc.isRequestException, if_pos] at hok
          exact absurd (congrArg (fun r => r.2) (Except.ok.inj hok)).symm hne
        · rw [if_neg h400] at hok
          cases rbody with
          | malformed =>
            simp only [parseBodyGuarded, PyExc.isRequestException,
              if_pos] at hok
            exact absurd (congrArg (fun r => r.2) (Except.ok.inj hok)).symm
              hne
          | empty =>
            simp only [parseBodyGuarded] at hok
            by_cases hget : (method == "GET" && useCache) = true
            · rw [if_pos hget] at hok
              rcases Bool.and_eq_true_iff.mp hget with ⟨hm, hu⟩
              exact ⟨by simpa using hm, hu, status, .empty, rfl,
                by omega, h429, by simp⟩
            · rw [if_neg hget] at hok
              exact absurd (congrArg (fun r => r.2) (Except.ok.inj hok)).symm
                hne
          | body v =>
            simp only [parseBodyGuarded] at hok
            by_cases hget : (method == "GET" && useCache) = true
            · rw [if_pos hget] at hok
              rcases Bool.and_eq_true_iff.mp hget with ⟨hm, hu⟩
              exact ⟨by simpa using hm, hu, status, .body v, rfl,
                by omega, h429, by simp⟩
            · rw [if_neg hget] at hok
              exact absurd (congrArg (fun r => r.2) (Except.ok.inj hok)).symm
                hne

/-- Witness for `cache_population_only_on_success`: a cacheable 200 GET on
an empty cache changes the cache, and the theorem recovers the success
shape of the exchange. -/
theorem cache_population_only_on_success_witness :
    (pyRequest "servers" "GET" [] true [] 0 (.response 200 .empty)
      = .ok ((some (Json.jobj []), none), [("servers_", ⟨Json.jobj [], 0⟩)]))
    ∧ ("GET" = "GET" ∧ true = true
        ∧ ∃ status rbody,
            (UpstreamOutcome.response 200 .empty : UpstreamOutcome)
              = .response status rbody
            ∧ status < 400 ∧ status ≠ 429 ∧ rbody ≠ .malformed) :=
  ⟨rfl,
    cache_population_only_on_success "servers" "GET" [] true [] 0
      (.response 200 .empty) (some (Json.jobj []), none)
      [("servers_", ⟨Json.jobj [], 0⟩)] rfl (by simp)⟩

/-! ### Route error mapping (`get_servers`, app.py lines 926-944)

`get_servers` builds the query parameters, calls
`api_client.get_paged_data('servers', params)` (which is `_request` with
method GET and caching enabled), and returns
`jsonify({"error": error}), 500` on any error, else
`jsonify({"servers": servers})` (status 200). -/

/-- The params dict built by `get_servers` (app.py lines 927-936). -/
def getServersParams (page : Int) (query suspended : String) :
    List (String × PVal) :=
  [("page", .pint page), ("per_page", .pint 10)]
    ++ (if query == "" then [] else [("filter[name]", .pstr query)])
    ++ (if suspended == "true" then [("filter[suspended]", .pbool true)]
        else if suspended == "false" then
          [("filter[suspended]", .pbool false)]
        else [])

/-- The `get_servers` route handler: `(status, body)` of the HTTP response
it produces, plus the cache state it leaves behind. -/
def get_servers (cache : CacheMap) (now : Time) (outcome : UpstreamOutcome)
    (page : Int) (query suspended : String) :
    Except PyExc ((Nat × Json) × CacheMap) :=
  match pyRequest "servers" "GET" (getServersParams page query suspended)
      true cache now outcome with
  | .error e => .error e
  | .ok ((data, err), cache') =>
    match err with
    | some m => .ok ((500, .jobj [("error", m)]), cache')
    | none => .ok ((200, .jobj [("servers", data.getD .null)]), cache')

/-- C4 counterexample: an upstream timeout is answered with HTTP 500, not
the claimed 502, and an upstream 404 is also answered with HTTP 500, not
the claimed propagation of the same status code. -/
theorem upstream_error_status_counterexample :
    get_servers [] 0 .timeout 1 "" ""
      = .ok ((500, .jobj [("error", timeoutMsg)]), [])
    ∧ (500 : Nat) ≠ 502
    ∧ get_servers [] 0 (.response 404 .empty) 1 "" ""
      = .ok ((500, .jobj [("error", httpErrorMsg 404 .empty)]), [])
    ∧ (500 : Nat) ≠ 404 :=
  ⟨rfl, by decide, rfl, by decide⟩

/-- C4 (amended): when the upstream is unreachable or the request times out
(and no valid cache entry short-circuits the call), the client receives
HTTP 500 — not 502 — with a generic message, the full detail being only
logged server-side; when the upstream returns an HTTP-error status (4xx or
5xx), the client likewise receives HTTP 500 — the upstream status code is
not propagated — with a message carrying the upstream status number or the
upstream's own error detail (status 429 mapped to its dedicated message);
a non-2xx status below 400 such as 304, however, passes `raise_for_status`
and is answered with HTTP 200, not 500. -/
theorem upstream_error_mapped_to_500 (cache : CacheMap) (now : Time)
    (page : Int) (query suspended : String)
    (hmiss : is_cache_valid cache
      (get_cache_key "servers" (getServersParams page query suspended)) now
      cache_timeout = false) :
    get_servers cache now .timeout page query suspended
      = .ok ((500, .jobj [("error", timeoutMsg)]), cache)
    ∧ get_servers cache now .connectionError page query suspended
      = .ok ((500, .jobj [("error", criticalMsg)]), cache)
    ∧ (∀ status rbody, 400 ≤ status → status ≠ 429 →
        get_servers cache now (.response status rbody) page query suspended
          = .ok ((500, .jobj [("error", httpErrorMsg status rbody)]), cache))
    ∧ (∀ rbody,
        get_servers cache now (.response 429 rbody) page query suspended
          = .ok ((500, .jobj [("error", rateLimitHitMsg)]), cache))
    ∧ (∀ status rbody result, status < 400 → status ≠ 429 →
        parseBodyGuarded rbody = .ok result →
        get_servers cache now (.response status rbody) page query suspended
          = .ok ((200, .jobj [("servers", result)]),
              cachePut cache
                (get_cache_key "servers"
                  (getServersParams page query suspended))
                ⟨result, now⟩)) := by
  refine ⟨?_, ?_, ?_, ?_, ?_⟩
  · simp [get_servers, pyRequest, hmiss, requestTryBody, excMessage,
      PyExc.isRequestException]
  · simp [get_servers, pyRequest, hmiss, requestTryBody, excMessage,
      PyExc.isRequestException]
  · intro status rbody h400 h429
    have : (status == 429) = false := by simpa using h429
    simp [get_servers, pyRequest, hmiss, requestTryBody, this, h400,
      excMessage, PyExc.isRequestException]
  · intro rbody
    simp [get_servers, pyRequest, hmiss, requestTryBody, excMessage,
      PyExc.isRequestException]
  · intro status rbody result hlt h429 hparse
    have hbeq : (status == 429) = false := by simpa using h429
    have hge : ¬ (400 ≤ status) := by omega
    simp [get_servers, pyRequest, hmiss, requestTryBody, hbeq, hge, hparse]

/-- Witness for `upstream_error_mapped_to_500` on an empty cache: a timeout
yields 500, and an upstream 304 yields 200 and populates the cache. -/
theorem upstream_error_mapped_to_500_witness :
    is_cache_valid [] (get_cache_key "servers" (getServersParams 1 "" "")) 0
      cache_timeout = false
    ∧ get_servers [] 0 .timeout 1 "" ""
      = .ok ((500, .jobj [("error", timeoutMsg)]), [])
    ∧ get_servers [] 0 (.response 304 .empty) 1 "" ""
      = .ok ((200, .jobj [("servers", Json.jobj [])]),
          cachePut [] (get_cache_key "servers" (getServersParams 1 "" ""))
            ⟨Json.jobj [], 0⟩) :=
  ⟨rfl, (upstream_error_mapped_to_500 [] 0 1 "" "" rfl).1,
    (upstream_error_mapped_to_500 [] 0 1 "" "" rfl).2.2.2.2 304 .empty
      (Json.jobj []) (by omega) (by decide) rfl⟩

/-! ### Rate-limit rejection short-circuits the handler (app.py lines
211-228)

`wrapped` returns `jsonify({"error": "Rate limit exceeded"}), 429` before
`f` is called; every upstream HTTP call of a route happens inside `f`.  A
handler outcome is modelled as `(status, body, upstream calls performed)`,
so the wrapped response's third component counts the upstream HTTP calls
made while handling the request. -/

def rateLimitExceededBody : Json := .jobj [("error", .jstr "Rate limit exceeded")]

/-- The `wrapped` closure produced by `rate_limit(limit, per)` applied to a
handler `f`, acting on one client's timestamp list. -/
def rate_limit_wrapped (limit : Nat) (per now : Time) (times : List Time)
    (handler : Nat × Json × Nat) : (Nat × Json × Nat) × List Time :=
  let step := rateLimitAdmit limit per now times
  if step.1 then (handler, step.2)
  else ((429, rateLimitExceededBody, 0), step.2)

/-- `rate_limit` wrapped around the real `get_servers` handler (app.py line
925: `@rate_limit(limit=30, per=60)` precedes the handler body): the
admission check runs before the handler — and hence before any upstream
exchange — so a rejected request never consults the upstream oracle and
never touches the cache. -/
def rate_limited_get_servers (limit : Nat) (per now : Time)
    (times : List Time) (cache : CacheMap) (tnow : Time)
    (outcome : UpstreamOutcome) (page : Int) (query suspended : String) :
    Except PyExc ((Nat × Json) × CacheMap) × List Time :=
  let step := rateLimitAdmit limit per now times
  if step.1 then (get_servers cache tnow outcome page query suspended, step.2)
  else (.ok ((429, rateLimitExceededBody), cache), step.2)

/-- C5: for every inbound request whose client has exhausted its admission
quota (at least `limit` recorded timestamps survive pruning), the response
is HTTP 429 with zero upstream HTTP calls — whatever the handler would have
done — and the current time is not recorded; wrapped around the real
`get_servers` handler, the rejected request's response is the same for
every upstream oracle outcome (no upstream exchange can influence it) and
the cache is left untouched. -/
theorem rate_limited_request_no_upstream_call (limit : Nat) (per now : Time)
    (times : List Time) (handler : Nat × Json × Nat)
    (h : limit ≤ (times.filter (fun t => decide (now - t < per))).length) :
    rate_limit_wrapped limit per now times handler
      = ((429, rateLimitExceededBody, 0),
         times.filter (fun t => decide (now - t < per)))
    ∧ (∀ (cache : CacheMap) (tnow : Time) (outcome : UpstreamOutcome)
        (page : Int) (query suspended : String),
        rate_limited_get_servers limit per now times cache tnow outcome
            page query suspended
          = (.ok ((429, rateLimitExceededBody), cache),
             times.filter (fun t => decide (now - t < per)))) := by
  have hstep : rateLimitAdmit limit per now times
      = (false, times.filter (fun t => decide (now - t < per))) := by
    simp [rateLimitAdmit, h]
  refine ⟨?_, ?_⟩
  · simp [rate_limit_wrapped, hstep]
  · intro cache tnow outcome page query suspended
    simp [rate_limited_get_servers, hstep]

/-- Witness for `rate_limited_request_no_upstream_call`: limit 3, three
admissions already recorded at the current instant, and a handler that
would have made 7 upstream calls — the response is 429 with 0 upstream
calls; around the real `get_servers`, a timed-out upstream and a healthy
200 upstream give the identical 429 response on an unchanged cache. -/
theorem rate_limited_request_no_upstream_call_witness :
    3 ≤ (([0, 0, 0] : List Time).filter
        (fun t => decide ((0 : Time) - t < 60))).length
    ∧ rate_limit_wrapped 3 60 0 [0, 0, 0] (200, Json.null, 7)
      = ((429, rateLimitExceededBody, 0),
         ([0, 0, 0] : List Time).filter (fun t => decide ((0 : Time) - t < 60)))
    ∧ rate_limited_get_servers 3 60 0 [0, 0, 0] [] 0 .timeout 1 "" ""
      = (.ok ((429, rateLimitExceededBody), []),
         ([0, 0, 0] : List Time).filter (fun t => decide ((0 : Time) - t < 60)))
    ∧ rate_limited_get_servers 3 60 0 [0, 0, 0] [] 0
        (.response 200 .empty) 1 "" ""
      = (.ok ((429, rateLimitExceededBody), []),
         ([0, 0, 0] : List Time).filter (fun t => decide ((0 : Time) - t < 60))) :=
  have hlen : 3 ≤ (([0, 0, 0] : List Time).filter
      (fun t => decide ((0 : Time) - t < 60))).length := by
    norm_num [List.filter]
  ⟨hlen,
    (rate_limited_request_no_upstream_call 3 60 0 [0, 0, 0]
      (200, Json.null, 7) hlen).1,
    (rate_limited_request_no_upstream_call 3 60 0 [0, 0, 0]
      (200, Json.null, 7) hlen).2 [] 0 .timeout 1 "" "",
    (rate_limited_request_no_upstream_call 3 60 0 [0, 0, 0]
      (200, Json.null, 7) hlen).2 [] 0 (.response 200 .empty) 1 "" ""⟩

/-! ### CSRF middleware (`check_csrf`, app.py lines 877-882)

`@app.before_request` runs before every route handler: for POST, DELETE and
PATCH requests it reads `session.get('_csrf_token', None)` and rejects with
`jsonify({"error": "CSRF token mismatch"}), 400` when the token is missing
or differs from the `X-CSRF-Token` header; only if the check passes does
Flask invoke the route handler. -/

def csrfMismatchBody : Json := .jobj [("error", .jstr "CSRF token mismatch")]

/-- `check_csrf` (app.py lines 877-882): `some response` aborts the request,
`none` lets the handler run. -/
def check_csrf (method : String) (sessionToken headerToken : Option String) :
    Option (Nat × Json) :=
  if method == "POST" || method == "DELETE" || method == "PATCH" then
    match sessionToken with
    | none => some (400, csrfMismatchBody)
    | some t =>
      if headerToken == some t then none else some (400, csrfMismatchBody)
  else none

/-- Flask's dispatch of one request through the `before_request` hook: the
response produced, and whether the route handler was invoked. -/
def dispatch_with_csrf (method : String)
    (sessionToken headerToken : Option String) (handler : Nat × Json) :
    (Nat × Json) × Bool :=
  match check_csrf method sessionToken headerToken with
  | some resp => (resp, false)
  | none => (handler, true)

/-- C9: for every POST/DELETE/PATCH request whose session holds no
`_csrf_token` or whose `X-CSRF-Token` header differs from it, the
application responds 400 with the CSRF-mismatch body and the route handler
is never invoked — in particular for POST `/login` from the login form,
which submits no CSRF header while a fresh session holds no token, so the
login POST is rejected before credentials are checked. -/
theorem csrf_gate_blocks_unauthenticated_post (method : String)
    (sessionToken headerToken : Option String) (handler : Nat × Json)
    (hm : method = "POST" ∨ method = "DELETE" ∨ method = "PATCH")
    (htok : sessionToken = none ∨ headerToken ≠ sessionToken) :
    dispatch_with_csrf method sessionToken headerToken handler
      = ((400, csrfMismatchBody), false) := by
  have hmb : (method == "POST" || method == "DELETE" || method == "PATCH")
      = true := by
    rcases hm with h | h | h <;> simp [h]
  cases sessionToken with
  | none => simp [dispatch_with_csrf, check_csrf, hmb]
  | some t =>
    rcases htok with h | h
    · exact absurd h (by simp)
    · have : (headerToken == some t) = false := by simpa using h
      simp [dispatch_with_csrf, check_csrf, hmb, this]

/-- Witness for `csrf_gate_blocks_unauthenticated_post`: the login-form POST
(fresh session, no CSRF header) is answered 400 without running the login
handler. -/
theorem csrf_gate_blocks_unauthenticated_post_witness :
    ("POST" = "POST" ∨ "POST" = "DELETE" ∨ "POST" = "PATCH")
    ∧ ((none : Option String) = none ∨ (none : Option String) ≠ none)
    ∧ dispatch_with_csrf "POST" none none (200, Json.jstr "login-page")
      = ((400, csrfMismatchBody), false) :=
  ⟨Or.inl rfl, Or.inl rfl,
    csrf_gate_blocks_unauthenticated_post "POST" none none
      (200, Json.jstr "login-page") (Or.inl rfl) (Or.inl rfl)⟩

/-! ### Paged fetching (`PterodactylAPI.get_all_data`, app.py lines 154-184)

The loop issues `requests.get(url, ...)` while `url` is truthy and fewer
than `max_pages = 10` pages were fetched; the `url` variable holds whatever
JSON value the `next` pagination link contained (requests stringifies a
non-string URL and then raises `MissingSchema`, a `RequestException`, for
the schemeless result).  `except RequestException` turns any communication
failure into an early `(None, message)` return; the subscript
`json_data['data']`, iterating its value, and the `.get(...)` chains raise
ordinary `KeyError`/`TypeError`/`AttributeError` which are NOT caught. -/

/-- `d.get(k, default)`: `AttributeError` when the receiver is not a dict. -/
def jget (v : Json) (k : String) (dflt : Json) : Except PyExc Json :=
  match v with
  | .jobj fs => .ok ((List.lookup k fs).getD dflt)
  | _ => .error .attributeError

/-- `all_data.extend(json_data['data'])` (app.py line 169): `KeyError` when
the key is missing, `TypeError` when `json_data` is not a dict or the value
is not iterable; iterating a string yields its characters and iterating a
dict yields its keys, as in Python. -/
def extendItems (v : Json) : Except PyExc (List Json) :=
  match v with
  | .jobj fs =>
    match List.lookup "data" fs with
    | none => .error (.keyError "data")
    | some (.jarr xs) => .ok xs
    | some (.jstr s) => .ok (s.toList.map (fun c => Json.jstr (String.mk [c])))
    | some (.jobj gfs) => .ok (gfs.map (fun p => Json.jstr p.1))
    | some _ => .error .typeError
  | _ => .error .typeError

/-- `json_data.get('meta', {}).get('pagination', {}).get('links',
{}).get('next')` (app.py line 172). -/
def nextOf (v : Json) : Except PyExc Json :=
  match jget v "meta" (.jobj []) with
  | .error e => .error e
  | .ok m =>
    match jget m "pagination" (.jobj []) with
    | .error e => .error e
    | .ok p =>
      match jget p "links" (.jobj []) with
      | .error e => .error e
      | .ok l => jget l "next" .null

/-- `max_pages = 10` (app.py line 162). -/
def max_pages : Nat := 10

inductive LoopOut where
  | finished (allData : List Json) (lastJson : Option Json)
  | commFailed
  | raised (e : PyExc)

/-- The `while url and page_count < max_pages` loop of `get_all_data`
(app.py lines 164-177), recursing on the remaining page budget; the second
component counts the upstream `requests.get` calls issued. -/
def getAllLoop (up : String → Option (List (String × PVal)) → UpstreamOutcome) :
    Nat → Json → Option (List (String × PVal)) → List Json → Option Json →
      LoopOut × Nat
  | 0, _, _, acc, lastJson => (.finished acc lastJson, 0)
  | b + 1, url, params, acc, lastJson =>
    if url.truthy then
      match url with
      | .jstr u =>
        (match up u params with
        | .timeout => (.commFailed, 1)
        | .connectionError => (.commFailed, 1)
        | .response status rbody =>
          if 400 ≤ status then (.commFailed, 1)
          else
            match parseBodyRaw rbody with
            | .error _ => (.commFailed, 1)
            | .ok jsonData =>
              match extendItems jsonData with
              | .error e => (.raised e, 1)
              | .ok items =>
                match nextOf jsonData with
                | .error e => (.raised e, 1)
                | .ok nextUrl =>
                  let r := getAllLoop up b nextUrl none (acc ++ items)
                    (some jsonData)
                  (r.1, r.2 + 1))
      | _ => (.commFailed, 1)
    else (.finished acc lastJson, 0)

/-- `json.dumps`-free rendering of `'pagination' in final_meta` followed by
`final_meta['pagination']['total'] = len(all_data)` (app.py lines 180-182):
the membership test on a non-dict mirrors Python (`in` on a string is
substring search, on a list is membership, otherwise `TypeError`), and the
nested assignment raises `TypeError` when `final_meta['pagination']` is not
a dict. -/
def setPaginationTotal (meta : Json) (n : Nat) : Except PyExc Json :=
  match meta with
  | .jobj fs =>
    match List.lookup "pagination" fs with
    | none => .ok meta
    | some (.jobj pfs) =>
      .ok (.jobj (assocSet fs "pagination"
        (.jobj (assocSet pfs "total" (.jnum n)))))
    | some _ => .error .typeError
  | .jstr s =>
    if listHasSub "pagination".toList s.toList then .error .typeError
    else .ok meta
  | .jarr xs =>
    if xs.any (fun e => match e with | .jstr t => t == "pagination" | _ => false)
    then .error .typeError else .ok meta
  | _ => .error .typeError

/-- `PterodactylAPI.get_all_data` (app.py lines 154-184): run the loop from
the endpoint URL with `per_page` forced to 100, then rebuild the final meta
object with its pagination total overwritten by the number of collected
items.  Returns the `(data, error)` pair and the number of upstream page
requests issued. -/
def get_all_data (up : String → Option (List (String × PVal)) → UpstreamOutcome)
    (baseUrl endpoint : String) (params0 : List (String × PVal)) :
    Except PyExc ApiResult × Nat :=
  let params := assocSet params0 "per_page" (.pint 100)
  match getAllLoop up max_pages (.jstr (baseUrl ++ "/" ++ endpoint))
      (some params) [] none with
  | (.raised e, n) => (.error e, n)
  | (.commFailed, n) =>
    (.ok (none,
      some (.jstr ("Could not fetch all data from " ++ endpoint ++ "."))), n)
  | (.finished acc lastJson, n) =>
    match lastJson with
    | none =>
      (.ok (some (.jobj [("data", .jarr acc), ("meta", .jobj [])]), none), n)
    | some j =>
      match jget j "meta" (.jobj []) with
      | .error e => (.error e, n)
      | .ok m =>
        match setPaginationTotal m acc.length with
        | .error e => (.error e, n)
        | .ok m' =>
          (.ok (some (.jobj [("data", .jarr acc), ("meta", m')]), none), n)

lemma getAllLoop_count_le
    (up : String → Option (List (String × PVal)) → UpstreamOutcome) :
    ∀ (b : Nat) (url : Json) (params : Option (List (String × PVal)))
      (acc : List Json) (lj : Option Json),
      (getAllLoop up b url params acc lj).2 ≤ b
  | 0, _, _, _, _ => Nat.le.refl
  | b + 1, url, params, acc, lj => by
    unfold getAllLoop
    by_cases ht : url.truthy
    · rw [if_pos ht]
      cases url with
      | jstr u =>
        cases hup : up u params with
        | timeout => simp [hup]
        | connectionError => simp [hup]
        | response status rbody =>
          simp only [hup]
          by_cases h4 : 400 ≤ status
          · simp [h4]
          · rw [if_neg h4]
            rcases hp : parseBodyRaw rbody with e1 | jsonData
            · simp [hp]
            · simp only [hp]
              rcases he : extendItems jsonData with e1 | items
              · simp [he]
              · simp only [he]
                rcases hn : nextOf jsonData with e1 | nextUrl
                · simp [hn]
                · simp only [hn]
                  have ih := getAllLoop_count_le up b nextUrl none
                    (acc ++ items) (some jsonData)
                  simpa using Nat.succ_le_succ ih
      | null => simp
      | jbool b' => simp
      | jnum n' => simp
      | jarr xs => simp
      | jobj fs => simp
    · rw [if_neg ht]
      exact Nat.zero_le _

lemma get_all_data_count_eq
    (up : String → Option (List (String × PVal)) → UpstreamOutcome)
    (baseUrl endpoint : String) (params0 : List (String × PVal)) :
    (get_all_data up baseUrl endpoint params0).2
      = (getAllLoop up max_pages (.jstr (baseUrl ++ "/" ++ endpoint))
          (some (assocSet params0 "per_page" (.pint 100))) [] none).2 := by
  simp only [get_all_data]
  split
  · rename_i heq; rw [heq]
  · rename_i heq; rw [heq]
  · rename_i acc lastJson n heq
    cases lastJson with
    | none => rw [heq]
    | some j =>
      rw [heq]
      rcases hj : jget j "meta" (.jobj []) with e1 | m
      · simp [hj]
      · rcases hm : setPaginationTotal m acc.length with e1 | m'
        · simp [hj, hm]
        · simp [hj, hm]

/-- Upstream oracle whose every page answers 200 with one item and a `next`
link pointing back at itself — an unbounded pagination cycle, with a
declared upstream total of 999. -/
def cycleUp : String → Option (List (String × PVal)) → UpstreamOutcome :=
  fun _ _ => .response 200 (.body (.jobj
    [("data", .jarr [.jnum 1]),
     ("meta", .jobj [("pagination", .jobj
        [("total", .jnum 999),
         ("links", .jobj [("next", .jstr "loop")])])])]))

/-- C10: `get_all_data` issues at most `max_pages = 10` upstream page
requests for every upstream behaviour, so it terminates even when the
upstream's pagination links form a cycle; on the cycling upstream (whose
every page declares total 999, carries one item and a self-referencing
`next` link) exactly 10 requests are made, the collected data is silently
truncated to the 10 fetched pages, and the reported pagination total is
overwritten with the item count actually collected (10), not the
upstream's declared total (999). -/
theorem get_all_data_page_bound
    (up : String → Option (List (String × PVal)) → UpstreamOutcome)
    (baseUrl endpoint : String) (params0 : List (String × PVal)) :
    (get_all_data up baseUrl endpoint params0).2 ≤ max_pages
    ∧ cycleUp "loop" none
      = .response 200 (.body (.jobj
          [("data", .jarr [.jnum 1]),
           ("meta", .jobj [("pagination", .jobj
              [("total", .jnum 999),
               ("links", .jobj [("next", .jstr "loop")])])])]))
    ∧ get_all_data cycleUp "B" "servers" []
      = (.ok (some (.jobj
          [("data", .jarr (List.replicate 10 (.jnum 1))),
           ("meta", .jobj [("pagination", .jobj
              [("total", .jnum 10),
               ("links", .jobj [("next", .jstr "loop")])])])]), none), 10) := by
  refine ⟨?_, rfl, rfl⟩
  rw [get_all_data_count_eq]
  exact getAllLoop_count_le up max_pages _ _ [] none

/-- Witness for `get_all_data_page_bound` at the cycling upstream. -/
theorem get_all_data_page_bound_witness :
    (get_all_data cycleUp "B" "servers" []).2 ≤ max_pages :=
  (get_all_data_page_bound cycleUp "B" "servers" []).1

/-! ### Exception containment (claim C7) -/

lemma jget_error_not_request (v : Json) (k : String) (d : Json) (e : PyExc)
    (h : jget v k d = .error e) : e.isRequestException = false := by
  unfold jget at h
  split at h <;>
    first
      | exact (Except.error.inj h) ▸ rfl
      | exact absurd h (by simp)

lemma extendItems_error_not_request (v : Json) (e : PyExc)
    (h : extendItems v = .error e) : e.isRequestException = false := by
  cases v with
  | jobj fs =>
    rcases hl : List.lookup "data" fs with _ | val
    · simp only [extendItems, hl] at h
      exact (Except.error.inj h) ▸ rfl
    · cases val <;> simp only [extendItems, hl] at h <;>
        first
          | exact (Except.error.inj h) ▸ rfl
          | simp at h
  | null => simp only [extendItems] at h; exact (Except.error.inj h) ▸ rfl
  | jbool b => simp only [extendItems] at h; exact (Except.error.inj h) ▸ rfl
  | jnum k => simp only [extendItems] at h; exact (Except.error.inj h) ▸ rfl
  | jstr s => simp only [extendItems] at h; exact (Except.error.inj h) ▸ rfl
  | jarr xs => simp only [extendItems] at h; exact (Except.error.inj h) ▸ rfl

lemma nextOf_error_not_request (v : Json) (e : PyExc)
    (h : nextOf v = .error e) : e.isRequestException = false := by
  unfold nextOf at h
  rcases h1 : jget v "meta" (.jobj []) with e1 | m
  · simp only [h1] at h
    exact (Except.error.inj h) ▸ jget_error_not_request _ _ _ _ h1
  · simp only [h1] at h
    rcases h2 : jget m "pagination" (.jobj []) with e1 | p
    · simp only [h2] at h
      exact (Except.error.inj h) ▸ jget_error_not_request _ _ _ _ h2
    · simp only [h2] at h
      rcases h3 : jget p "links" (.jobj []) with e1 | l
      · simp only [h3] at h
        exact (Except.error.inj h) ▸ jget_error_not_request _ _ _ _ h3
      · simp only [h3] at h
        exact jget_error_not_request _ _ _ _ h

lemma setPaginationTotal_error_not_request (m : Json) (n : Nat) (e : PyExc)
    (h : setPaginationTotal m n = .error e) : e.isRequestException = false := by
  cases m with
  | jobj fs =>
    rcases hl : List.lookup "pagination" fs with _ | val
    · simp only [setPaginationTotal, hl] at h
      exact absurd h (by simp)
    · cases val <;> simp only [setPaginationTotal, hl] at h <;>
        first
          | exact (Except.error.inj h) ▸ rfl
          | simp at h
  | jstr s =>
    simp only [setPaginationTotal] at h
    split at h
    · exact (Except.error.inj h) ▸ rfl
    · simp at h
  | jarr xs =>
    simp only [setPaginationTotal] at h
    split at h
    · exact (Except.error.inj h) ▸ rfl
    · simp at h
  | null =>
    simp only [setPaginationTotal] at h
    exact (Except.error.inj h) ▸ rfl
  | jbool b =>
    simp only [setPaginationTotal] at h
    exact (Except.error.inj h) ▸ rfl
  | jnum k =>
    simp only [setPaginationTotal] at h
    exact (Except.error.inj h) ▸ rfl

lemma getAllLoop_raised_not_request
    (up : String → Option (List (String × PVal)) → UpstreamOutcome) :
    ∀ (b : Nat) (url : Json) (params : Option (List (String × PVal)))
      (acc : List Json) (lj : Option Json) (e : PyExc),
      (getAllLoop up b url params acc lj).1 = .raised e →
      e.isRequestException = false
  | 0, url, params, acc, lj, e => by
    intro h; simp [getAllLoop] at h
  | b + 1, url, params, acc, lj, e => by
    intro h
    unfold getAllLoop at h
    by_cases ht : url.truthy
    · rw [if_pos ht] at h
      cases url with
      | jstr u =>
        cases hup : up u params with
        | timeout => simp [hup] at h
        | connectionError => simp [hup] at h
        | response status rbody =>
          simp only [hup] at h
          by_cases h4 : 400 ≤ status
          · rw [if_pos h4] at h; simp at h
          · rw [if_neg h4] at h
            rcases hp : parseBodyRaw rbody with e1 | jsonData
            · simp [hp] at h
            · simp only [hp] at h
              rcases he : extendItems jsonData with e1 | items
              · simp only [he] at h
                simp at h
                exact h ▸ extendItems_error_not_request _ _ he
              · simp only [he] at h
                rcases hn : nextOf jsonData with e1 | nextUrl
                · simp only [hn] at h
                  simp at h
                  exact h ▸ nextOf_error_not_request _ _ hn
                · simp only [hn] at h
                  exact getAllLoop_raised_not_request up b nextUrl none
                    (acc ++ items) (some jsonData) e (by simpa using h)
      | null => simp at h
      | jbool b' => simp at h
      | jnum n' => simp at h
      | jarr xs => simp at h
      | jobj fs => simp at h
    · rw [if_neg ht] at h; simp at h

lemma get_all_data_error_not_request
    (up : String → Option (List (String × PVal)) → UpstreamOutcome)
    (baseUrl endpoint : String) (params0 : List (String × PVal)) (e : PyExc)
    (h : (get_all_data up baseUrl endpoint params0).1 = .error e) :
    e.isRequestException = false := by
  simp only [get_all_data] at h
  rcases hres : getAllLoop up max_pages (.jstr (baseUrl ++ "/" ++ endpoint))
      (some (assocSet params0 "per_page" (.pint 100))) [] none with ⟨out, n⟩
  rw [hres] at h
  rcases out with ⟨acc, lj⟩ | _ | e1
  · rcases lj with _ | j
    · simp at h
    · rcases hj : jget j "meta" (.jobj []) with e1 | m
      · simp only [hj] at h
        simp at h
        exact h ▸ jget_error_not_request _ _ _ _ hj
      · simp only [hj] at h
        rcases hm : setPaginationTotal m acc.length with e1 | m'
        · simp only [hm] at h
          simp at h
          exact h ▸ setPaginationTotal_error_not_request _ _ _ hm
        · simp only [hm] at h; simp at h
  · simp at h
  · simp at h
    exact h ▸ getAllLoop_raised_not_request up max_pages _ _ [] none e1
      (by rw [hres])

lemma requestTryBody_raises_request (method : String) (useCache : Bool)
    (cacheKey : String) (cache : CacheMap) (now : Time)
    (outcome : UpstreamOutcome) (e : PyExc)
    (h : requestTryBody method useCache cacheKey cache now outcome
      = .error e) : e.isRequestException = true := by
  cases outcome with
  | timeout =>
    simp only [requestTryBody] at h
    exact (Except.error.inj h) ▸ rfl
  | connectionError =>
    simp only [requestTryBody] at h
    exact (Except.error.inj h) ▸ rfl
  | response status rbody =>
    simp only [requestTryBody] at h
    by_cases h429 : (status == 429) = true
    · rw [if_pos h429] at h; exact absurd h (by simp)
    · rw [if_neg h429] at h
      by_cases h4 : 400 ≤ status
      · rw [if_pos h4] at h
        exact (Except.error.inj h) ▸ rfl
      · rw [if_neg h4] at h
        cases rbody with
        | empty =>
          simp only [parseBodyGuarded] at h
          split at h <;> simp at h
        | malformed =>
          simp only [parseBodyGuarded] at h
          exact (Except.error.inj h) ▸ rfl
        | body v =>
          simp only [parseBodyGuarded] at h
          split at h <;> simp at h

lemma is_cache_valid_lookup_isSome (cache : CacheMap) (key : String)
    (now timeout : Time) (h : is_cache_valid cache key now timeout = true) :
    (cache.lookup key).isSome := by
  unfold is_cache_valid at h
  cases hl : cache.lookup key with
  | none => rw [hl] at h; simp at h
  | some e => simp

lemma pyRequest_no_exception (endpoint method : String)
    (params : List (String × PVal)) (useCache : Bool) (cache : CacheMap)
    (now : Time) (outcome : UpstreamOutcome) (e : PyExc) :
    pyRequest endpoint method params useCache cache now outcome
      ≠ .error e := by
  intro h
  unfold pyRequest at h
  by_cases hhit : (method == "GET" && useCache
      && is_cache_valid cache (get_cache_key endpoint params) now
        cache_timeout) = true
  · rw [if_pos hhit] at h
    cases hl : List.lookup (get_cache_key endpoint params) cache with
    | some en => rw [hl] at h; simp at h
    | none =>
      have hv : is_cache_valid cache (get_cache_key endpoint params) now
          cache_timeout = true := (Bool.and_eq_true_iff.mp hhit).2
      have := is_cache_valid_lookup_isSome cache
        (get_cache_key endpoint params) now cache_timeout hv
      rw [hl] at this
      simp at this
  · rw [if_neg hhit] at h
    cases htb : requestTryBody method useCache (get_cache_key endpoint params)
        cache now outcome with
    | ok r => simp only [htb] at h; simp at h
    | error e1 =>
      simp only [htb] at h
      have hreq : e1.isRequestException = true :=
        requestTryBody_raises_request _ _ _ _ _ _ _ htb
      rw [hreq] at h
      simp at h

/-- C7: total containment of upstream-communication failures.  `_request`
never lets any exception escape: every timeout, connection error, HTTP
error and malformed response body is converted into a structured
`(data, error-message)` result; and any exception that does escape the
paged fetcher `get_all_data` (a `KeyError`/`TypeError`/`AttributeError` on
an unexpectedly-shaped 2xx payload) is never an upstream-communication
exception (`RequestException`), whatever the upstream does. -/
theorem upstream_failures_contained (endpoint method : String)
    (params : List (String × PVal)) (useCache : Bool) (cache : CacheMap)
    (now : Time) (outcome : UpstreamOutcome)
    (up : String → Option (List (String × PVal)) → UpstreamOutcome)
    (baseUrl endpoint2 : String) (params0 : List (String × PVal)) :
    (∀ e, pyRequest endpoint method params useCache cache now outcome
        ≠ .error e)
    ∧ (∀ e, (get_all_data up baseUrl endpoint2 params0).1 = .error e →
        e.isRequestException = false) :=
  ⟨fun e => pyRequest_no_exception endpoint method params useCache cache now
      outcome e,
   fun e h => get_all_data_error_not_request up baseUrl endpoint2 params0 e h⟩

/-- Witness for `upstream_failures_contained`: a concrete timed-out request
is not an escaped exception. -/
theorem upstream_failures_contained_witness :
    pyRequest "servers" "GET" [] true [] 0 .timeout
      ≠ .error PyExc.timeout :=
  (upstream_failures_contained "servers" "GET" [] true [] 0 .timeout
    cycleUp "B" "servers" []).1 PyExc.timeout

/-! ### UrlRewriter (claim C8)

The repository file under verification (`app.py`, the Pterodactyl
dashboard variant) contains no HTML URL rewriter; the component exists only
in the specification (§4.3), which is why the definitions below are
modelled from the spec rather than translated from source. -/

/-- Whether `p` is a prefix of the string `s`. -/
def strStarts (p s : String) : Bool := listStarts p.toList s.toList

/-- Modelled from the spec: URL percent-encoding of the absolute URL placed
in the `/fetch?url=` query parameter (the UrlRewriter is absent from
`app.py`).  Unreserved characters pass through, everything else becomes
`%XX` from the character code. -/
def percentEncodeChar (c : Char) : List Char :=
  if c.isAlphanum || c == '-' || c == '.' || c == '_' || c == '~' then [c]
  else
    ['%',
     (if c.toNat / 16 % 16 < 10 then Char.ofNat (48 + c.toNat / 16 % 16)
      else Char.ofNat (55 + c.toNat / 16 % 16)),
     (if c.toNat % 16 < 10 then Char.ofNat (48 + c.toNat % 16)
      else Char.ofNat (55 + c.toNat % 16))]

/-- Modelled from the spec: percent-encode a whole URL. -/
def percentEncode (s : String) : String :=
  String.mk (s.toList.flatMap percentEncodeChar)

/-- Modelled from the spec: standard base-URL resolution against a base of
the form `scheme://host` — protocol-relative `//host` references keep the
https scheme, root-relative and fragment-only references are appended to
the base, and other relative paths resolve under the base's root. -/
def resolveUrl (base rel : String) : String :=
  if strStarts "//" rel then "https:" ++ rel
  else if strStarts "/" rel then base ++ rel
  else if strStarts "#" rel then base ++ rel
  else base ++ "/" ++ rel

/-- Modelled from the spec: rewrite one attribute value (UrlRewriter §4.3).
Values already denoting an absolute URL (recognized scheme) are left
unmodified; values already pointing at `/fetch?` are recognized as already
rewritten and skipped; everything else is resolved against the base URL and
replaced by a locally-rooted fetch path percent-encoding the absolute
URL. -/
def rewriteAttrValue (base v : String) : String :=
  if strStarts "http://" v || strStarts "https://" v then v
  else if strStarts "/fetch?" v then v
  else "/fetch?url=" ++ percentEncode (resolveUrl base v)

/-- One rewritable tag/attribute occurrence of the parsed HTML document. -/
structure HtmlRef where
  tag : String
  attr : String
  value : String

/-- The static RewriteRule table of the specification's data model. -/
def rewriteRules : List (String × String) :=
  [("link", "href"), ("script", "src"), ("img", "src"),
   ("iframe", "src"), ("a", "href")]

/-- Modelled from the spec: rewrite one element — only tag/attribute pairs
in the RewriteRule table are touched. -/
def rewriteElement (base : String) (el : HtmlRef) : HtmlRef :=
  if rewriteRules.contains (el.tag, el.attr) then
    { el with value := rewriteAttrValue base el.value }
  else el

/-- Modelled from the spec: the UrlRewriter's `rewrite` operation over a
document, represented by its list of element/attribute occurrences. -/
def rewriteHtml (base : String) (doc : List HtmlRef) : List HtmlRef :=
  doc.map (rewriteElement base)

lemma listStarts_self_append : ∀ (p r : List Char),
    listStarts p (p ++ r) = true
  | [], _ => rfl
  | c :: p, r => by simp [listStarts, listStarts_self_append p r]

lemma listStarts_cons_ne (c d : Char) (p s : List Char)
    (h : (c == d) = false) : listStarts (c :: p) (d :: s) = false := by
  simp [listStarts, h]

lemma strStarts_fetch (s : String) :
    strStarts "/fetch?" ("/fetch?url=" ++ s) = true := by
  unfold strStarts
  rw [toList_append,
    show ("/fetch?url=" : String).toList
      = "/fetch?".toList ++ "url=".toList from rfl,
    List.append_assoc]
  exact listStarts_self_append _ _

lemma strStarts_http_fetch (s : String) :
    strStarts "http://" ("/fetch?url=" ++ s) = false := by
  unfold strStarts
  rw [toList_append,
    show ("http://" : String).toList = 'h' :: "ttp://".toList from rfl,
    show ("/fetch?url=" : String).toList = '/' :: "fetch?url=".toList from rfl,
    List.cons_append]
  exact listStarts_cons_ne _ _ _ _ (by decide)

lemma strStarts_https_fetch (s : String) :
    strStarts "https://" ("/fetch?url=" ++ s) = false := by
  unfold strStarts
  rw [toList_append,
    show ("https://" : String).toList = 'h' :: "ttps://".toList from rfl,
    show ("/fetch?url=" : String).toList = '/' :: "fetch?url=".toList from rfl,
    List.cons_append]
  exact listStarts_cons_ne _ _ _ _ (by decide)

lemma rewriteAttrValue_idem (base v : String) :
    rewriteAttrValue base (rewriteAttrValue base v)
      = rewriteAttrValue base v := by
  by_cases h1 : (strStarts "http://" v || strStarts "https://" v) = true
  · have hv : rewriteAttrValue base v = v := by
      unfold rewriteAttrValue; rw [if_pos h1]
    rw [hv, hv]
  · by_cases h2 : strStarts "/fetch?" v = true
    · have hv : rewriteAttrValue base v = v := by
        unfold rewriteAttrValue; rw [if_neg h1, if_pos h2]
      rw [hv, hv]
    · have hv : rewriteAttrValue base v
          = "/fetch?url=" ++ percentEncode (resolveUrl base v) := by
        unfold rewriteAttrValue; rw [if_neg h1, if_neg h2]
      rw [hv]
      have ha : (strStarts "http://"
            ("/fetch?url=" ++ percentEncode (resolveUrl base v))
          || strStarts "https://"
            ("/fetch?url=" ++ percentEncode (resolveUrl base v))) = false := by
        simp [strStarts_http_fetch, strStarts_https_fetch]
      unfold rewriteAttrValue
      rw [if_neg (by simp [ha]), if_pos (strStarts_fetch _)]

lemma rewriteElement_idem (base : String) : ∀ (el : HtmlRef),
    rewriteElement base (rewriteElement base el) = rewriteElement base el
  | ⟨tag, attr, v⟩ => by
    unfold rewriteElement
    by_cases hc : rewriteRules.contains (tag, attr) = true
    · rw [if_pos hc]
      dsimp only
      rw [if_pos hc, rewriteAttrValue_idem]
    · rw [if_neg hc]
      dsimp only
      rw [if_neg hc]

/-- C8: rewrite idempotence.  Applying the URL rewrite operation to the
output of a first rewrite produces identical output to the first pass:
asset URLs already pointing at `/fetch?` are recognized as already
rewritten, and freshly rewritten values start with `/fetch?url=` and are
skipped by the second pass, so nothing is double-encoded. -/
theorem rewrite_idempotent (base : String) (doc : List HtmlRef) :
    rewriteHtml base (rewriteHtml base doc) = rewriteHtml base doc := by
  unfold rewriteHtml
  rw [List.map_map]
  exact List.map_congr_left (fun el _ => rewriteElement_idem base el)

end AppVerify
